import Mathlib

set_option maxHeartbeats 1000000

/-!
Verification of the aegis-api attack-simulation core.

The Python sources are shallowly embedded:
* floats become rationals (`ℚ`), with Python's `round` modelled by `pyRound`
  (round half to even);
* the seeded numpy generator becomes an abstract draw stream `g : ℕ → ℕ`
  together with a position counter; each primitive random call reads one fresh
  position and maps it into the call's documented range (so determinism and
  range facts are captured, while the concrete PCG64 bit stream is abstract);
* Beta-distributed fallback draws are modelled by an oracle whose samples are
  bundled with the support fact `0 ≤ x ≤ 1` of the Beta distribution;
* the async generator `run_attack` becomes a pure function from a configuration,
  an environment of collaborator oracles and the module-level global state to
  the list of yielded events, the final global state, the final DB state and a
  flag recording whether the invocation raised.
-/

namespace Aegis

/-- Models Python's built-in `round` on a rational: round half to even. -/
def pyRound (q : ℚ) : ℤ :=
  let f := ⌊q⌋
  let r := q - f
  if r < 1/2 then f
  else if 1/2 < r then f + 1
  else if f % 2 = 0 then f else f + 1

/-- Models Python's `round(x, k)`: round to `k` decimal digits. -/
def roundTo (k : ℕ) (q : ℚ) : ℚ := (pyRound (q * 10 ^ k) : ℚ) / 10 ^ k

/-- Models `round(x, 4)` as used for risk scores and metrics. -/
def round4 : ℚ → ℚ := roundTo 4

/-- Models `round(x, 2)` as used for `amount_foreign`. -/
def round2 : ℚ → ℚ := roundTo 2

/-- Models `schemas.attack.StatsSnapshot`.  The Python `per_type` /
`per_type_total` dicts are embedded as insertion-ordered association lists
keyed by the (optional) fraud type. -/
structure StatsSnapshot where
  total : ℕ := 0
  approved : ℕ := 0
  flagged : ℕ := 0
  tp : ℕ := 0
  fp : ℕ := 0
  tn : ℕ := 0
  fn : ℕ := 0
  «recall» : ℚ := 0
  precision : ℚ := 0
  f1 : ℚ := 0
  fpr : ℚ := 0
  per_type : List (Option String × ℕ) := []
  per_type_total : List (Option String × ℕ) := []
  roi_saved : ℕ := 0
deriving Repr, DecidableEq

/-- Models `StatsSnapshot()`, the freshly reset statistics object. -/
def emptyStats : StatsSnapshot := {}

/-- Models the Python dict update `d[k] = d.get(k, 0) + 1` on an
insertion-ordered association list. -/
def bump (m : List (Option String × ℕ)) (k : Option String) :
    List (Option String × ℕ) :=
  if m.any (fun p => p.1 = k) then
    m.map (fun p => if p.1 = k then (p.1, p.2 + 1) else p)
  else m ++ [(k, 1)]

/-- Models the counter part of the per-transaction stats update of `run_attack`
(`services/attack_simulation.py` lines 161-179): `total`, the confusion-matrix
counters, `approved`/`flagged` and the per-type dicts. -/
def updateCounts (s : StatsSnapshot) (is_fraud : Bool) (fraud_type : Option String)
    (is_flagged : Bool) : StatsSnapshot :=
  let s1 := { s with total := s.total + 1 }
  if is_fraud then
    let sf := { s1 with per_type_total := bump s1.per_type_total fraud_type }
    if is_flagged then
      { sf with tp := sf.tp + 1, flagged := sf.flagged + 1,
                per_type := bump sf.per_type fraud_type }
    else
      { sf with fn := sf.fn + 1, approved := sf.approved + 1 }
  else
    if is_flagged then
      { s1 with fp := s1.fp + 1, flagged := s1.flagged + 1 }
    else
      { s1 with tn := s1.tn + 1, approved := s1.approved + 1 }

/-- Models the metric recomputation of `run_attack`
(`services/attack_simulation.py` lines 181-188): recall, precision, f1, fpr and
roi_saved recomputed from the freshly updated counters. -/
def recomputeMetrics (t : StatsSnapshot) : StatsSnapshot :=
  let rec4 := round4 ((t.tp : ℚ) / ((max (t.tp + t.fn) 1 : ℕ) : ℚ))
  let precision := round4 ((t.tp : ℚ) / ((max (t.tp + t.fp) 1 : ℕ) : ℚ))
  let f1 := round4 (2 * precision * rec4 / max (precision + rec4) (1 / 100000000))
  let fpr := round4 ((t.fp : ℚ) / ((max (t.fp + t.tn) 1 : ℕ) : ℚ))
  { t with «recall» := rec4, precision := precision, f1 := f1, fpr := fpr,
           roi_saved := t.tp * 1500000 }

/-- Models the complete per-transaction stats update of `run_attack`
(`services/attack_simulation.py` lines 161-188). -/
def updateStats (s : StatsSnapshot) (is_fraud : Bool) (fraud_type : Option String)
    (is_flagged : Bool) : StatsSnapshot :=
  recomputeMetrics (updateCounts s is_fraud fraud_type is_flagged)

/-- One scored transaction as seen by the stats update: ground-truth fraud flag,
fraud type, flag outcome. -/
def statsStep (s : StatsSnapshot) (u : Bool × Option String × Bool) : StatsSnapshot :=
  updateStats s u.1 u.2.1 u.2.2

/-- The partition invariant of `RunStats`. -/
def statsInv (s : StatsSnapshot) : Prop :=
  s.total = s.tp + s.fp + s.tn + s.fn ∧ s.total = s.approved + s.flagged

/-- Models Python `datetime` values at second precision: an ordinal day plus
hour/minute/second fields.  The generators only ever format these fields with
`strftime`, an injective rendering, so the embedding keeps the structured value
instead of the rendered text. -/
structure PyDateTime where
  day : ℕ
  hour : ℕ
  minute : ℕ
  second : ℕ
deriving Repr, DecidableEq

/-- Models `t + timedelta(seconds=s)` (also used for minute offsets, scaled). -/
def PyDateTime.addSeconds (t : PyDateTime) (s : ℕ) : PyDateTime :=
  let tot := ((t.hour * 60 + t.minute) * 60 + t.second) + s
  ⟨t.day + tot / 86400, tot % 86400 / 3600, tot % 3600 / 60, tot % 60⟩

/-- Models `t.replace(hour=h, minute=m)`. -/
def PyDateTime.replaceHM (t : PyDateTime) (h m : ℕ) : PyDateTime :=
  ⟨t.day, h, m, t.second⟩

/-- The fixed batch base time `datetime(2026, 2, 25, 14, 0, 0)`; ordinal day
`0` stands for 2026-02-25. -/
def batchBaseTime : PyDateTime := ⟨0, 14, 0, 0⟩

/-- Models the entries of the `ISSUERS` dict of
`services/transaction_engine.py`. -/
structure Issuer where
  name : String
  country : String
  currency : String
  rate : ℚ
deriving Repr, DecidableEq

/-- Models `ISSUERS` (insertion order of the Python dict). -/
def ISSUERS : List Issuer :=
  [⟨"Alipay_CN", "CN", "CNY", 2450⟩,
   ⟨"WeChat_CN", "CN", "CNY", 2450⟩,
   ⟨"UnionPay_CN", "CN", "CNY", 2450⟩,
   ⟨"JPQR_JP", "JP", "JPY", 107⟩,
   ⟨"PayPay_JP", "JP", "JPY", 107⟩,
   ⟨"KakaoPay_KR", "KR", "KRW", (11.6 : ℚ)⟩,
   ⟨"GrabPay_SG", "SG", "SGD", 12200⟩,
   ⟨"TouchNGo_MY", "MY", "MYR", 3550⟩,
   ⟨"PromptPay_TH", "TH", "THB", 455⟩]

/-- Models `MERCHANT_NAMES`. -/
def MERCHANT_NAMES : List String :=
  ["Bali Beach Resort", "Jakarta Mall", "Surabaya Electronics",
   "Yogya Batik Center", "Denpasar Jewelry", "Bandung Cafe",
   "Medan Food Court", "Semarang Market", "Makassar Seafood",
   "Lombok Surf Shop", "Ubud Art Gallery", "Kuta Night Market"]

/-- Models `CITIES`. -/
def CITIES : List String :=
  ["Bali", "Jakarta", "Surabaya", "Yogyakarta", "Denpasar",
   "Bandung", "Medan", "Semarang", "Makassar", "Lombok"]

/-- One raw draw of the seeded stream at position `c`, mapped into `[lo, hi)`:
models `int(rng.integers(lo, hi))`. -/
def drawInt (g : ℕ → ℕ) (c lo hi : ℕ) : ℕ := lo + g c % (hi - lo)

/-- Models `rng.choice(l)`: one draw selecting an element of `l` (the default
`d` is never reached for the nonempty constant lists it is used with). -/
def drawChoice (g : ℕ → ℕ) (c : ℕ) (l : List α) (d : α) : α :=
  l.getD (g c % l.length) d

/-- Models `_hash` (first 16 hex chars of a sha256 digest): an opaque
deterministic string digest.  No claim depends on digest values, only on
`_hash` being a deterministic function of its input. -/
def _hash (s : String) : String := "#" ++ s

/-- The decimal digit characters of `n`, most significant first (empty for
`0`). -/
def decChars (n : ℕ) : List Char := ((Nat.digits 10 n).reverse).map Nat.digitChar

/-- Models the Python format spec `:06d`: left-pad the decimal rendering with
zeros to at least six characters. -/
def pad6 (n : ℕ) : String :=
  String.mk (List.replicate (6 - (decChars n).length) '0' ++ decChars n)

/-- Models the f-string `TXN-` + run-id + `-` + `:06d` sequence number used for
`txn_id`. -/
def mkTxnId (pfx : String) (n : ℕ) : String := "TXN-" ++ pfx ++ "-" ++ pad6 n

/-- A generated synthetic transaction: models the dicts produced by the
generators of `services/transaction_engine.py`. -/
structure Txn where
  txn_id : String
  timestamp : PyDateTime
  payer : String
  issuer : String
  country : String
  merchant : String
  city : String
  amount_idr : ℕ
  amount_foreign : ℚ
  currency : String
  is_fraud : Bool
  fraud_type : Option String
  attack_detail : Option String
deriving Repr, DecidableEq

/-- Issuer default for `drawChoice`; never selected (ISSUERS is nonempty). -/
def dIssuer : Issuer := ⟨"", "", "", 1⟩

/-- Txn default for list indexing; never selected where used. -/
def dTxn : Txn :=
  ⟨"", batchBaseTime, "", "", "", "", "", 0, 0, "", false, none, none⟩

/-- Models `gen_normal` (`services/transaction_engine.py` lines 42-61).  The
`int(rng.lognormal(12.5, 0.8))` draw is modelled as the raw stream value at its
position (an arbitrary seeded nonnegative integer); the clamp into
`[50000, 2000000]` is kept exactly.  Returns the transaction and the advanced
stream position. -/
def gen_normal (g : ℕ → ℕ) (c : ℕ) (txn_id : ℕ) (base_time : PyDateTime)
    (pfx : String) : Txn × ℕ :=
  let iss := drawChoice g c ISSUERS dIssuer
  let amount := max 50000 (min (g (c + 1)) 2000000)
  let ts := base_time.addSeconds (drawInt g (c + 2) 0 3600)
  let payer := (_hash ("tourist_" ++ toString (drawInt g (c + 3) 0 5000))).take 10
  let merchant := drawChoice g (c + 4) MERCHANT_NAMES ""
  let city := drawChoice g (c + 5) CITIES ""
  (⟨mkTxnId pfx txn_id, ts, payer, iss.name, iss.country, merchant, city,
    amount, round2 ((amount : ℚ) / iss.rate), iss.currency, false, none, none⟩,
   c + 6)

/-- Models `gen_velocity` (`services/transaction_engine.py` lines 65-89). -/
def gen_velocity (g : ℕ → ℕ) (c : ℕ) (txn_id_start : ℕ) (base_time : PyDateTime)
    (pfx : String) : List Txn × ℕ :=
  let iss := drawChoice g c ISSUERS dIssuer
  let payer := (_hash ("attacker_vel_" ++ toString (drawInt g (c + 1) 0 1000))).take 10
  let n := drawInt g (c + 2) 8 13
  let txns := (List.range n).map (fun i =>
    let amount := drawInt g (c + 3 + 4 * i) 100000 500000
    let ts := base_time.addSeconds (drawInt g (c + 4 + 4 * i) 0 180)
    let merchant := drawChoice g (c + 5 + 4 * i) MERCHANT_NAMES ""
    let city := drawChoice g (c + 6 + 4 * i) CITIES ""
    ⟨mkTxnId pfx (txn_id_start + i), ts, payer, iss.name, iss.country, merchant,
     city, amount, round2 ((amount : ℚ) / iss.rate), iss.currency, true,
     some "velocity_attack",
     some (toString n ++ " txns from same payer in <3min")⟩)
  (txns, c + 3 + 4 * n)

/-- Models `gen_card_testing` (`services/transaction_engine.py` lines 93-134):
`n_probes` ascending-ish probe transactions followed by one large purchase. -/
def gen_card_testing (g : ℕ → ℕ) (c : ℕ) (txn_id_start : ℕ)
    (base_time : PyDateTime) (pfx : String) : List Txn × ℕ :=
  let iss := drawChoice g c ISSUERS dIssuer
  let payer := (_hash ("attacker_ct_" ++ toString (drawInt g (c + 1) 0 1000))).take 10
  let n_probes := drawInt g (c + 2) 4 8
  let probes := (List.range n_probes).map (fun i =>
    let amount := drawInt g (c + 3 + 4 * i) 10000 35000
    let ts := base_time.addSeconds (drawInt g (c + 4 + 4 * i) 0 600)
    let merchant := drawChoice g (c + 5 + 4 * i) MERCHANT_NAMES ""
    let city := drawChoice g (c + 6 + 4 * i) CITIES ""
    ⟨mkTxnId pfx (txn_id_start + i), ts, payer, iss.name, iss.country, merchant,
     city, amount, round2 ((amount : ℚ) / iss.rate), iss.currency, true,
     some "card_testing",
     some ("Probing txn #" ++ toString (i + 1) ++ "/" ++ toString n_probes)⟩)
  let big := drawInt g (c + 3 + 4 * n_probes) 3000000 10000000
  let ts := base_time.addSeconds (drawInt g (c + 4 + 4 * n_probes) 600 900)
  let merchant := drawChoice g (c + 5 + 4 * n_probes) MERCHANT_NAMES ""
  let city := drawChoice g (c + 6 + 4 * n_probes) CITIES ""
  (probes ++
    [⟨mkTxnId pfx (txn_id_start + n_probes), ts, payer, iss.name, iss.country,
      merchant, city, big, round2 ((big : ℚ) / iss.rate), iss.currency, true,
      some "card_testing",
      some ("Large purchase after " ++ toString n_probes ++ " probes! " ++
        toString big ++ " IDR")⟩],
   c + 7 + 4 * n_probes)

/-- One collusion-ring member's transactions (`gen_collusion` inner loop,
`services/transaction_engine.py` lines 144-166); `acc` is the number of
transactions already emitted by earlier members (Python's `len(txns)`). -/
def collusionMember (g : ℕ → ℕ) (c : ℕ) (txn_id_start : ℕ)
    (base_time : PyDateTime) (pfx : String) (iss : Issuer) (target : String)
    (m n_members acc : ℕ) : List Txn × ℕ :=
  let payer :=
    (_hash ("ring_" ++ toString (drawInt g c 0 1000) ++ "_" ++ toString m)).take 10
  let k := drawInt g (c + 1) 2 4
  let txns := (List.range k).map (fun i =>
    let amount := drawInt g (c + 2 + 4 * i) 500000 5000000
    let mins := drawInt g (c + 3 + 4 * i) 0 60
    let secs := drawInt g (c + 4 + 4 * i) 0 60
    let city := drawChoice g (c + 5 + 4 * i) CITIES ""
    ⟨mkTxnId pfx (txn_id_start + acc + i),
     base_time.addSeconds (mins * 60 + secs), payer, iss.name, iss.country,
     target, city, amount, round2 ((amount : ℚ) / iss.rate), iss.currency, true,
     some "collusion_ring",
     some ("Ring member " ++ toString (m + 1) ++ "/" ++ toString n_members ++
       " -> " ++ target)⟩)
  (txns, c + 2 + 4 * k)

/-- The member loop of `gen_collusion`: arguments after `n_members` are the
number of remaining members, the member index `m`, the stream position and the
accumulated transaction count. -/
def collusionMembers (g : ℕ → ℕ) (txn_id_start : ℕ) (base_time : PyDateTime)
    (pfx : String) (iss : Issuer) (target : String) (n_members : ℕ) :
    ℕ → ℕ → ℕ → ℕ → List Txn × ℕ
  | 0, _, c, _ => ([], c)
  | rem + 1, m, c, acc =>
    let p := collusionMember g c txn_id_start base_time pfx iss target m n_members acc
    let rest := collusionMembers g txn_id_start base_time pfx iss target n_members
      rem (m + 1) p.2 (acc + p.1.length)
    (p.1 ++ rest.1, rest.2)

/-- Models `gen_collusion` (`services/transaction_engine.py` lines 138-167). -/
def gen_collusion (g : ℕ → ℕ) (c : ℕ) (txn_id_start : ℕ)
    (base_time : PyDateTime) (pfx : String) : List Txn × ℕ :=
  let iss := drawChoice g c ISSUERS dIssuer
  let target := drawChoice g (c + 1) MERCHANT_NAMES ""
  let n_members := drawInt g (c + 2) 3 6
  collusionMembers g txn_id_start base_time pfx iss target n_members
    n_members 0 (c + 3) 0

/-- Models `gen_geo` (`services/transaction_engine.py` lines 171-212).  The
no-replacement two-city draw removes the first drawn city before drawing the
second; the printed gap equals the drawn minute offset. -/
def gen_geo (g : ℕ → ℕ) (c : ℕ) (txn_id_start : ℕ) (base_time : PyDateTime)
    (pfx : String) : List Txn × ℕ :=
  let iss := drawChoice g c ISSUERS dIssuer
  let payer := (_hash ("attacker_geo_" ++ toString (drawInt g (c + 1) 0 1000))).take 10
  let j := g (c + 2) % CITIES.length
  let city0 := CITIES.getD j ""
  let remCities := CITIES.eraseIdx j
  let city1 := remCities.getD (g (c + 3) % remCities.length) ""
  let a1 := drawInt g (c + 4) 200000 1500000
  let a2 := drawInt g (c + 5) 200000 1500000
  let gapMin := drawInt g (c + 6) 5 15
  let ts2 := base_time.addSeconds (gapMin * 60)
  let detail := some (city0 ++ " -> " ++ city1 ++ " in " ++ toString gapMin ++ "min")
  let merchant0 := drawChoice g (c + 7) MERCHANT_NAMES ""
  let merchant1 := drawChoice g (c + 8) MERCHANT_NAMES ""
  ([⟨mkTxnId pfx txn_id_start, base_time, payer, iss.name, iss.country,
     merchant0, city0, a1, round2 ((a1 : ℚ) / iss.rate), iss.currency, true,
     some "geo_anomaly", detail⟩,
    ⟨mkTxnId pfx (txn_id_start + 1), ts2, payer, iss.name, iss.country,
     merchant1, city1, a2, round2 ((a2 : ℚ) / iss.rate), iss.currency, true,
     some "geo_anomaly", detail⟩],
   c + 9)

/-- Models `gen_amount` (`services/transaction_engine.py` lines 216-237). -/
def gen_amount (g : ℕ → ℕ) (c : ℕ) (txn_id_start : ℕ) (base_time : PyDateTime)
    (pfx : String) : List Txn × ℕ :=
  let iss := drawChoice g c ISSUERS dIssuer
  let payer := (_hash ("attacker_amt_" ++ toString (drawInt g (c + 1) 0 1000))).take 10
  let amount := drawInt g (c + 2) 5000000 10000000
  let hour := drawChoice g (c + 3) [22, 23, 0, 1, 2, 3, 4] 0
  let ts := base_time.replaceHM hour (drawInt g (c + 4) 0 60)
  let merchant := drawChoice g (c + 5) MERCHANT_NAMES ""
  let city := drawChoice g (c + 6) CITIES ""
  ([⟨mkTxnId pfx txn_id_start, ts, payer, iss.name, iss.country, merchant, city,
     amount, round2 ((amount : ℚ) / iss.rate), iss.currency, true,
     some "amount_anomaly",
     some (toString amount ++ " IDR at " ++ toString hour ++ ":00 (off-hours)")⟩],
   c + 7)

/-- Models `rng.shuffle`: a draw-indexed uniform permutation in the
remove-at-drawn-index style, consuming one draw per emitted element. -/
def shuffleAux (g : ℕ → ℕ) : ℕ → ℕ → List α → List α
  | _, _, [] => []
  | 0, _, l => l
  | fuel + 1, c, x :: xs =>
    let l := x :: xs
    let j := g c % l.length
    l.getD j x :: shuffleAux g fuel (c + 1) (l.eraseIdx j)

/-- Models `rng.shuffle(l)` starting at stream position `c`. -/
def shuffle (g : ℕ → ℕ) (c : ℕ) (l : List α) : List α := shuffleAux g l.length c l

/-- The normal-transaction loop of `generate_attack_batch`: emits `k` normal
transactions, one sequence number and six stream draws each; returns the list
and the final stream position. -/
def normalLoop (g : ℕ → ℕ) (base_time : PyDateTime) (pfx : String) :
    ℕ → ℕ → ℕ → List Txn × ℕ
  | 0, _, c => ([], c)
  | k + 1, tid, c =>
    let p := gen_normal g c tid base_time pfx
    let rest := normalLoop g base_time pfx k (tid + 1) p.2
    (p.1 :: rest.1, rest.2)

/-- One fraud-archetype repetition loop of `generate_attack_batch`: runs the
group generator `reps` times, advancing the batch transaction counter by the
length of each emitted group (Python's `txn_id += len(t)`). -/
def groupLoop (gen : ℕ → ℕ → List Txn × ℕ) : ℕ → ℕ → ℕ → List Txn × ℕ × ℕ
  | 0, tid, c => ([], tid, c)
  | r + 1, tid, c =>
    let p := gen c tid
    let rest := groupLoop gen r (tid + p.1.length) p.2
    (p.1 ++ rest.1, rest.2)

/-- The body of `generate_attack_batch` after the fraud-target arithmetic:
`n_normal` normal transactions, the five archetype repetition loops sized from
`n_fraud_target`, and the final shuffle. -/
def batchCore (g : ℕ → ℕ) (n_fraud_target n_normal : ℕ) (pfx : String) :
    List Txn :=
  let base_time := batchBaseTime
  let normals := normalLoop g base_time pfx n_normal 1 0
  let fpt := max (n_fraud_target / 5) 2
  let vel := groupLoop (fun c tid => gen_velocity g c tid base_time pfx)
    (max (fpt / 10) 1) (1 + n_normal) normals.2
  let card := groupLoop (fun c tid => gen_card_testing g c tid base_time pfx)
    (max (fpt / 7) 1) vel.2.1 vel.2.2
  let coll := groupLoop (fun c tid => gen_collusion g c tid base_time pfx)
    (max (fpt / 8) 1) card.2.1 card.2.2
  let geo := groupLoop (fun c tid => gen_geo g c tid base_time pfx)
    (max (fpt / 2) 1) coll.2.1 coll.2.2
  let amt := groupLoop (fun c tid => gen_amount g c tid base_time pfx)
    (max fpt 1) geo.2.1 geo.2.2
  let allTxns := normals.1 ++ vel.1 ++ card.1 ++ coll.1 ++ geo.1 ++ amt.1
  shuffle g amt.2.2 allTxns

/-- Models `generate_attack_batch` (`services/transaction_engine.py` lines
241-292) over the abstract seeded stream `g`.  `pfx` models the
`secrets.token_hex(2)` run-id value, drawn outside the seeded stream;
`int(total * fraud_pct)` is the floor of the nonnegative product. -/
def generate_attack_batch (g : ℕ → ℕ) (total : ℕ) (fraud_pct : ℚ)
    (pfx : String) : List Txn :=
  let n_fraud_target := max (Int.toNat ⌊(total : ℚ) * fraud_pct⌋) 10
  batchCore g n_fraud_target (total - n_fraud_target) pfx

/-- Models `schemas.attack.AttackConfig` (validation bounds live in the
router layer; `run_attack` receives an already-validated value). -/
structure AttackConfig where
  total : ℕ := 500
  fraud_pct : ℚ := (0.05 : ℚ)
  speed : String := "normal"
deriving Repr, DecidableEq

/-- Models `schemas.attack.XAIFeature`. -/
structure XAIFeature where
  feature : String
  display_name : String
  importance : ℚ
deriving Repr, DecidableEq

/-- Models `schemas.attack.TransactionEvent`; also the content of a persisted
`SimulatedTransaction` row, which carries the same fields. -/
structure TransactionEvent where
  txn_id : String
  timestamp : PyDateTime
  payer : String
  issuer : String
  country : String
  merchant : String
  city : String
  amount_idr : ℕ
  amount_foreign : ℚ
  currency : String
  risk_score : ℚ
  is_flagged : Bool
  is_fraud : Bool
  fraud_type : Option String
  attack_detail : Option String
  xai_reasons : List XAIFeature
deriving Repr, DecidableEq

/-- The event dicts yielded by `run_attack`. -/
inductive Event where
  | log (level text : String)
  | attack_start (total fraud : ℕ)
  | txn (t : TransactionEvent)
  | stats_update (s : StatsSnapshot)
  | attack_end (s : StatsSnapshot)
  | error (text : String)
deriving Repr, DecidableEq

/-- The per-transaction payload sent to `aegis_ai_client.score_transactions`. -/
structure ScoreReq where
  txn_id : String
  is_fraud : Bool
  fraud_type : Option String
deriving Repr, DecidableEq

/-- A Beta-distributed sample: the support of every Beta distribution is
contained in `[0, 1]`. -/
abbrev BetaSample : Type := { q : ℚ // 0 ≤ q ∧ q ≤ 1 }

/-- Oracles for the collaborators of one `run_attack` invocation: the aegis-ai
service (health, model info, per-index scoring, explanations) and the unseeded
fallback rng (`beta a b i` is the Beta(a, b) sample drawn for transaction
index `i`).  A `none` result models a raised exception. -/
structure Env where
  healthOk : Bool
  modelInfo : Option (String × ℚ)
  score : ℕ → ScoreReq → Option (ℚ × Bool)
  beta : ℕ → ℕ → ℕ → BetaSample
  explain : ℕ → Option (List XAIFeature)

/-- The storage collaborator: whether the nth `db.commit()` call of the
invocation succeeds (`false` models a raised persistence error). -/
structure Db where
  commitOk : ℕ → Bool

/-- The session/DB state accumulated during a run. -/
structure DbState where
  runStatus : Option String
  runMode : Option String
  rows : List TransactionEvent
  commits : ℕ
  finalized : Bool
deriving Repr, DecidableEq

/-- The module-level globals of `services/attack_simulation.py`. -/
structure GState where
  attack_running : Bool
  current_stats : StatsSnapshot
deriving Repr, DecidableEq

/-- The observable outcome of one full consumption of the `run_attack` async
generator: the yielded events in order, the final globals, the final DB state
and whether the invocation raised. -/
structure RunResult where
  events : List Event
  gstate : GState
  db : Option DbState
  raised : Bool
deriving Repr, DecidableEq

/-- The state threaded through the body of `run_attack`. -/
structure LoopSt where
  stats : StatsSnapshot
  events : List Event
  dbs : Option DbState
deriving Repr, DecidableEq

/-- Models `await db.commit()`: consumes one commit slot; a `false` slot
raises. -/
def doCommit (d : Db) (s : DbState) : Except DbState DbState :=
  if d.commitOk s.commits then .ok { s with commits := s.commits + 1 }
  else .error { s with commits := s.commits + 1 }

/-- Models the delay lookup `delay_map.get(config.speed, 0.04)`
(lines 54-55); pacing is presentation-only and has no effect on events or
state in the embedding. -/
def speedDelay (speed : String) : ℚ :=
  if speed = "slow" then (0.15 : ℚ)
  else if speed = "normal" then (0.04 : ℚ)
  else if speed = "fast" then (0.005 : ℚ)
  else (0.04 : ℚ)

/-- The per-transaction scoring step of `run_attack`
(`services/attack_simulation.py` lines 106-120): the primary aegis-ai call;
on any raise, the local fallback draws Beta(5, 2) when the ground truth is
fraud and Beta(1, 8) otherwise, rounds to 4 decimals and flags when the score
reaches the threshold. -/
def scoreTxn (env : Env) (threshold : ℚ) (i : ℕ) (t : Txn) : ℚ × Bool :=
  match env.score i ⟨t.txn_id, t.is_fraud, t.fraud_type⟩ with
  | some r => r
  | none =>
    let sc := round4 (if t.is_fraud then (env.beta 5 2 i).val else (env.beta 1 8 i).val)
    (sc, decide (sc ≥ threshold))

/-- The explanation step (lines 122-133): only requested when flagged;
failures are swallowed, leaving the empty feature list. -/
def explainTxn (env : Env) (i : ℕ) (flagged : Bool) : List XAIFeature :=
  if flagged then (env.explain i).getD [] else []

/-- Assembles the transaction event dict (lines 137-155 and 191-208; the
persisted row and the yielded event carry the same fields). -/
def mkTxnEvent (t : Txn) (score : ℚ) (flagged : Bool) (xai : List XAIFeature) :
    TransactionEvent :=
  ⟨t.txn_id, t.timestamp, t.payer, t.issuer, t.country, t.merchant, t.city,
   t.amount_idr, t.amount_foreign, t.currency, score, flagged, t.is_fraud,
   t.fraud_type, t.attack_detail, xai⟩

/-- The per-transaction body of the `run_attack` loop (lines 105-215): score,
explain when flagged, add the row to the session (committing on every 50th
index), update the stats, yield the transaction event and, on every 10th or
the last index, a stats_update event.  The error value carries the state at
the raise point. -/
def procTxn (env : Env) (d : Option Db) (threshold : ℚ) (n i : ℕ) (t : Txn)
    (st : LoopSt) : Except LoopSt LoopSt :=
  let sf := scoreTxn env threshold i t
  let xai := explainTxn env i sf.2
  let ev := mkTxnEvent t sf.1 sf.2 xai
  let dbStep : Except (Option DbState) (Option DbState) :=
    match d, st.dbs with
    | some dd, some s =>
      let s1 := { s with rows := s.rows ++ [ev] }
      if i % 50 = 0 then
        match doCommit dd s1 with
        | .ok s2 => .ok (some s2)
        | .error s2 => .error (some s2)
      else .ok (some s1)
    | _, _ => .ok st.dbs
  match dbStep with
  | .error dbs1 => .error { st with dbs := dbs1 }
  | .ok dbs1 =>
    let stats1 := updateStats st.stats t.is_fraud t.fraud_type sf.2
    let evs1 := st.events ++ [Event.txn ev]
    let evs2 :=
      if i % 10 = 0 ∨ i = n - 1 then evs1 ++ [Event.stats_update stats1]
      else evs1
    .ok ⟨stats1, evs2, dbs1⟩

/-- The scoring loop of `run_attack` over the generated batch. -/
def runLoop (env : Env) (d : Option Db) (threshold : ℚ) (n : ℕ) :
    List Txn → ℕ → LoopSt → Except LoopSt LoopSt
  | [], _, st => .ok st
  | t :: rest, i, st =>
    match procTxn env d threshold n i t st with
    | .ok st1 => runLoop env d threshold n rest (i + 1) st1
    | .error st1 => .error st1

/-- The run's mode label (lines 78-86): from `get_model_info`, or the
`SIMULATION` default when that call raises. -/
def modelMode (env : Env) : String :=
  match env.modelInfo with | some mi => mi.1 | none => "SIMULATION"

/-- The run's threshold (lines 78-86): from `get_model_info`, or the `0.5`
default when that call raises.  This is the last known or default threshold
used by the local scoring fallback. -/
def modelThreshold (env : Env) : ℚ :=
  match env.modelInfo with | some mi => mi.2 | none => (0.5 : ℚ)

/-- The log and `attack_start` events yielded before the scoring loop
(lines 72-101). -/
def preLoopEvents (cfg : AttackConfig) (env : Env) (allLen nFraud : ℕ) :
    List Event :=
  [Event.log "info" "[AegisNode] Connecting to ML model service..."] ++
    (if env.healthOk then []
     else [Event.log "warning" "[AegisNode] aegis-ai unreachable, using simulation mode"]) ++
    [Event.log "info" ("[AegisNode] Mode: " ++ modelMode env ++ " | Threshold: " ++
       toString (modelThreshold env)),
     Event.log "info" ("[AegisNode] Generating " ++ toString cfg.total ++ " transactions..."),
     Event.log "info" ("[AegisNode] Ready: " ++ toString allLen ++ " txns (" ++
       toString nFraud ++ " fraud). Streaming..."),
     Event.attack_start allLen nFraud]

/-- The `try` body of `run_attack` (lines 70-250): health probe, model info
(with its own swallowed-exception fallback), the run-mode commit, generation,
the scoring loop, the final commit, run finalization and the terminal events.
The error value carries the state at the raise point. -/
def runBody (cfg : AttackConfig) (env : Env) (d : Option Db) (g : ℕ → ℕ)
    (pfx : String) (dbs0 : Option DbState) : Except LoopSt LoopSt :=
  let mode := modelMode env
  let threshold := modelThreshold env
  let ev2 := [Event.log "info" "[AegisNode] Connecting to ML model service..."] ++
    (if env.healthOk then []
     else [Event.log "warning" "[AegisNode] aegis-ai unreachable, using simulation mode"]) ++
    [Event.log "info" ("[AegisNode] Mode: " ++ mode ++ " | Threshold: " ++ toString threshold)]
  let cont : Option DbState → Except LoopSt LoopSt := fun dbs1 =>
    let allTxns := generate_attack_batch g cfg.total cfg.fraud_pct pfx
    let nFraud := allTxns.countP (fun t => t.is_fraud)
    let ev3 := preLoopEvents cfg env allTxns.length nFraud
    match runLoop env d threshold allTxns.length allTxns 0 ⟨emptyStats, ev3, dbs1⟩ with
    | .error st => .error st
    | .ok st =>
      let fin : Except (Option DbState) (Option DbState) :=
        match d, st.dbs with
        | some dd, some s =>
          match doCommit dd s with
          | .error s1 => .error (some s1)
          | .ok s1 =>
            let s2 := { s1 with runStatus := some "completed", finalized := true }
            match doCommit dd s2 with
            | .error s3 => .error (some s3)
            | .ok s3 => .ok (some s3)
        | _, _ => .ok st.dbs
      match fin with
      | .error dbs2 => .error { st with dbs := dbs2 }
      | .ok dbs2 =>
        .ok ⟨st.stats,
          st.events ++
            [Event.log "success" "[AegisNode] Attack complete!",
             Event.attack_end st.stats],
          dbs2⟩
  match d, dbs0 with
  | some dd, some s =>
    let s1 := { s with runMode := some mode }
    match doCommit dd s1 with
    | .error s2 => .error ⟨emptyStats, ev2, some s2⟩
    | .ok s2 => cont (some s2)
  | _, _ => cont dbs0

/-- Models one full consumption of the async generator `run_attack`
(`services/attack_simulation.py` lines 30-258).  The AttackRun header insert
and commit (lines 58-68) happen after the guard is set but BEFORE the
`try`; the `finally` that clears `attack_running` (line 258) only guards the
body (lines 70-256). -/
def run_attack (cfg : AttackConfig) (env : Env) (d : Option Db) (g : ℕ → ℕ)
    (pfx : String) (gs : GState) : RunResult :=
  if gs.attack_running then
    { events := [Event.error "Attack already running!"], gstate := gs,
      db := none, raised := false }
  else
    let dbs0 : Option DbState :=
      d.map (fun _ => ⟨some "running", none, [], 0, false⟩)
    let headerRes : Except (Option DbState) (Option DbState) :=
      match d, dbs0 with
      | some dd, some s =>
        match doCommit dd s with
        | .ok s1 => .ok (some s1)
        | .error s1 => .error (some s1)
      | _, _ => .ok dbs0
    match headerRes with
    | .error dbs1 =>
      { events := [],
        gstate := { attack_running := true, current_stats := emptyStats },
        db := dbs1, raised := true }
    | .ok dbs1 =>
      match runBody cfg env d g pfx dbs1 with
      | .ok st =>
        { events := st.events,
          gstate := { attack_running := false, current_stats := st.stats },
          db := st.dbs, raised := false }
      | .error st =>
        let dbs2 := match d, st.dbs with
          | some dd, some s =>
            let s1 := { s with runStatus := some "failed" }
            match doCommit dd s1 with
            | .ok s2 => some s2
            | .error s2 => some s2
          | _, _ => st.dbs
        { events := st.events,
          gstate := { attack_running := false, current_stats := st.stats },
          db := dbs2, raised := true }

/-- A benign concrete environment for closed evaluations: service healthy, no
model info, scoring always raises (fallback path), Beta draws 1/2,
explanations raise. -/
def envFallback : Env :=
  { healthOk := true, modelInfo := none, score := fun _ _ => none,
    beta := fun _ _ _ => ⟨1/2, by norm_num⟩, explain := fun _ => none }

/-- The stub scorer of the end-to-end scenario: flags a transaction exactly
when its ground truth is fraud. -/
def envStub : Env :=
  { healthOk := true, modelInfo := none,
    score := fun _ q => some (if q.is_fraud then (0.9 : ℚ) else (0.1 : ℚ), q.is_fraud),
    beta := fun _ _ _ => ⟨1/2, by norm_num⟩, explain := fun _ => none }

/-- The all-zeros draw stream used for closed evaluations. -/
def g0 : ℕ → ℕ := fun _ => 0

/-- A db session whose very first commit (the AttackRun header commit of
lines 58-68) raises; later commits would succeed. -/
def dbHeaderFail : Db := ⟨fun n => decide (0 < n)⟩

/-- The end-to-end scenario configuration. -/
def cfg100 : AttackConfig := ⟨100, (0.1 : ℚ), "fast"⟩

/-- A db session whose header commit succeeds but whose next commit (the
run-mode update, already inside the `try`) raises. -/
def dbLateFail : Db := ⟨fun n => decide (n = 0)⟩

/-- The stats snapshot carried by the final yielded event of a run, when that
final event is `attack_end`. -/
def finalAttackEndStats (r : RunResult) : Option StatsSnapshot :=
  match r.events.getLast? with
  | some (Event.attack_end s) => some s
  | _ => none

/-- Blanks the only field that embeds the run-id value: two generator outputs
agree after `eraseId` exactly when they agree in every generated field other
than `txn_id`. -/
def eraseId (t : Txn) : Txn := { t with txn_id := "" }

/-- The five fraud archetype names. -/
def archetypes : List String :=
  ["velocity_attack", "card_testing", "collusion_ring", "geo_anomaly",
   "amount_anomaly"]

/-- The generator output discipline: the ground-truth flag is set exactly when
a fraud type is present, and any fraud type is one of the five archetype
names. -/
def TxnWellFormed (t : Txn) : Prop :=
  (t.is_fraud = true ↔ t.fraud_type ≠ none) ∧
  (∀ a, t.fraud_type = some a → a ∈ archetypes)

/-- Models `rng.random()`: one draw mapped into `[0, 1)`. -/
def drawUnit (g : ℕ → ℕ) (c : ℕ) : ℚ := ((g c % 1000000 : ℕ) : ℚ) / 1000000

/-- The stats threaded through the `run_attack` scoring loop when no session
is present: a fold of `updateStats` over the batch with the per-index scoring
outcome. -/
def loopStatsNoDb (env : Env) (thr : ℚ) : List Txn → ℕ → StatsSnapshot → StatsSnapshot
  | [], _, s => s
  | t :: rest, i, s =>
    loopStatsNoDb env thr rest (i + 1)
      (updateStats s t.is_fraud t.fraud_type (scoreTxn env thr i t).2)

/-- The events yielded by the `run_attack` scoring loop when no session is
present. -/
def loopEventsNoDb (env : Env) (thr : ℚ) (n : ℕ) :
    List Txn → ℕ → StatsSnapshot → List Event
  | [], _, _ => []
  | t :: rest, i, s =>
    let sf := scoreTxn env thr i t
    let s1 := updateStats s t.is_fraud t.fraud_type sf.2
    (Event.txn (mkTxnEvent t sf.1 sf.2 (explainTxn env i sf.2)) ::
      (if i % 10 = 0 ∨ i = n - 1 then [Event.stats_update s1] else [])) ++
      loopEventsNoDb env thr n rest (i + 1) s1

/-- Models `_generate_single_txn` of `services/data_filler.py` (lines 44-65):
draw the fraud branch from the configured ratio; on fraud, pick one of the
five archetype generators uniformly (the name choice indexed into the
generator dict) and keep only the first transaction of its group; otherwise
generate one normal transaction.  `bt` models `datetime.utcnow()` and `pfx`
the fresh `secrets.token_hex(2)` value. -/
def filler_generate_single (g : ℕ → ℕ) (c : ℕ) (fraud_ratio : ℚ)
    (txn_counter : ℕ) (bt : PyDateTime) (pfx : String) : Txn :=
  if drawUnit g c < fraud_ratio then
    let idx := g (c + 1) % 5
    let gens : List (ℕ → ℕ → List Txn × ℕ) :=
      [fun cc tid => gen_velocity g cc tid bt pfx,
       fun cc tid => gen_card_testing g cc tid bt pfx,
       fun cc tid => gen_collusion g cc tid bt pfx,
       fun cc tid => gen_geo g cc tid bt pfx,
       fun cc tid => gen_amount g cc tid bt pfx]
    let gen := gens.getD idx (fun cc tid => gen_amount g cc tid bt pfx)
    (gen (c + 2) txn_counter).1.headD dTxn
  else
    (gen_normal g c txn_counter bt pfx).1

end Aegis

namespace Aegis

lemma le_pyRound {n : ℤ} {q : ℚ} (h : (n : ℚ) ≤ q) : n ≤ pyRound q := by
  have hf : n ≤ ⌊q⌋ := Int.le_floor.2 h
  unfold pyRound
  dsimp only
  split
  · exact hf
  · split
    · omega
    · split <;> omega

lemma pyRound_le {n : ℤ} {q : ℚ} (h : q ≤ (n : ℚ)) : pyRound q ≤ n := by
  have hf : ⌊q⌋ ≤ n := by
    have := Int.floor_le_floor h
    simpa using this
  have hfloor : (⌊q⌋ : ℚ) ≤ q := Int.floor_le q
  by_cases hlt : q - ⌊q⌋ < 1/2
  · unfold pyRound; dsimp only; rw [if_pos hlt]; exact hf
  · -- in the non-first branches the result is at most ⌊q⌋ + 1, and ⌊q⌋ < n
    have hfrac : (1:ℚ)/2 ≤ q - ⌊q⌋ := le_of_not_lt hlt
    have hne : ⌊q⌋ ≠ n := by
      intro hEq
      have : q ≤ (⌊q⌋ : ℚ) := by rw [hEq]; exact_mod_cast h
      have : q - ⌊q⌋ ≤ 0 := by linarith
      linarith
    have hlt' : ⌊q⌋ + 1 ≤ n := by omega
    unfold pyRound; dsimp only
    rw [if_neg hlt]
    split
    · omega
    · split <;> omega

lemma roundTo_nonneg {k : ℕ} {q : ℚ} (h : 0 ≤ q) : 0 ≤ roundTo k q := by
  unfold roundTo
  have h1 : (0:ℚ) ≤ q * 10 ^ k := by positivity
  have h2 : (0:ℤ) ≤ pyRound (q * 10 ^ k) := le_pyRound (by exact_mod_cast h1)
  have h3 : (0:ℚ) ≤ (pyRound (q * 10 ^ k) : ℚ) := by exact_mod_cast h2
  positivity

lemma roundTo_le_one {k : ℕ} {q : ℚ} (h : q ≤ 1) : roundTo k q ≤ 1 := by
  unfold roundTo
  have hp : (0:ℚ) < 10 ^ k := by positivity
  have h1 : q * 10 ^ k ≤ 10 ^ k := by nlinarith
  have h2 : pyRound (q * 10 ^ k) ≤ (10 ^ k : ℤ) := by
    apply pyRound_le
    push_cast
    exact h1
  have h3 : (pyRound (q * 10 ^ k) : ℚ) ≤ (10 ^ k : ℚ) := by exact_mod_cast h2
  rw [div_le_one hp]
  exact h3

lemma round4_mem_unit {q : ℚ} (h0 : 0 ≤ q) (h1 : q ≤ 1) :
    0 ≤ round4 q ∧ round4 q ≤ 1 :=
  ⟨roundTo_nonneg h0, roundTo_le_one h1⟩

lemma round4_zero : round4 0 = 0 := by
  unfold round4 roundTo pyRound
  norm_num

lemma round4_one : round4 1 = 1 := by
  unfold round4 roundTo pyRound
  norm_num

/-- The ratio `tp / max (tp + x) 1` over the naturals lies in `[0,1]`. -/
lemma count_ratio_mem_unit (a b : ℕ) :
    0 ≤ (a : ℚ) / ((max (a + b) 1 : ℕ) : ℚ) ∧
      (a : ℚ) / ((max (a + b) 1 : ℕ) : ℚ) ≤ 1 := by
  have hden : (0:ℚ) < ((max (a + b) 1 : ℕ) : ℚ) := by
    have : 1 ≤ max (a + b) 1 := le_max_right _ _
    exact_mod_cast Nat.lt_of_lt_of_le Nat.zero_lt_one this
  constructor
  · positivity
  · rw [div_le_one hden]
    have : a ≤ max (a + b) 1 := le_trans (Nat.le_add_right a b) (le_max_left _ _)
    exact_mod_cast this

/-- The f1 combination of two values of `[0,1]` lies in `[0,1]`. -/
lemma f1_ratio_mem_unit {p r : ℚ} (hp0 : 0 ≤ p) (hp1 : p ≤ 1) (hr0 : 0 ≤ r)
    (hr1 : r ≤ 1) :
    0 ≤ 2 * p * r / max (p + r) (1 / 100000000) ∧
      2 * p * r / max (p + r) (1 / 100000000) ≤ 1 := by
  have hden : (0:ℚ) < max (p + r) (1 / 100000000) :=
    lt_of_lt_of_le (by norm_num) (le_max_right _ _)
  constructor
  · positivity
  · rw [div_le_one hden]
    have h2pr : 2 * p * r ≤ p + r := by nlinarith
    exact le_trans h2pr (le_max_left _ _)

lemma statsInv_empty : statsInv emptyStats := by
  constructor <;> rfl

lemma recomputeMetrics_counts (t : StatsSnapshot) :
    (recomputeMetrics t).total = t.total ∧
    (recomputeMetrics t).approved = t.approved ∧
    (recomputeMetrics t).flagged = t.flagged ∧
    (recomputeMetrics t).tp = t.tp ∧
    (recomputeMetrics t).fp = t.fp ∧
    (recomputeMetrics t).tn = t.tn ∧
    (recomputeMetrics t).fn = t.fn ∧
    (recomputeMetrics t).per_type = t.per_type ∧
    (recomputeMetrics t).per_type_total = t.per_type_total := by
  simp [recomputeMetrics]

lemma statsInv_update {s : StatsSnapshot} (h : statsInv s)
    (f : Bool) (ft : Option String) (fl : Bool) :
    statsInv (updateStats s f ft fl) := by
  obtain ⟨h1, h2⟩ := h
  cases f <;> cases fl <;>
    simp only [updateStats, updateCounts, recomputeMetrics, statsInv, bump] <;>
    constructor <;> simp <;> omega

lemma statsInv_foldl (l : List (Bool × Option String × Bool)) :
    ∀ s, statsInv s → statsInv (l.foldl statsStep s) := by
  induction l with
  | nil => intro s hs; simpa using hs
  | cons u t ih =>
    intro s hs
    exact ih _ (statsInv_update hs u.1 u.2.1 u.2.2)

/-- C2: For every sequence of scored transactions, after every per-transaction
stats update performed by `run_attack` (equivalently: after folding the update
over any prefix of the scored sequence, starting from the reset snapshot), the
`RunStats` snapshot satisfies `total = tp + fp + tn + fn = approved + flagged`;
in particular this also holds at run end. -/
theorem runStats_total_partition_invariant :
    statsInv emptyStats ∧
      ∀ l : List (Bool × Option String × Bool),
        statsInv (l.foldl statsStep emptyStats) :=
  ⟨statsInv_empty, fun l => statsInv_foldl l emptyStats statsInv_empty⟩

lemma recomputeMetrics_spec (t : StatsSnapshot) :
    let s' := recomputeMetrics t
    s'.«recall» = round4 ((s'.tp : ℚ) / ((max (s'.tp + s'.fn) 1 : ℕ) : ℚ)) ∧
    s'.precision = round4 ((s'.tp : ℚ) / ((max (s'.tp + s'.fp) 1 : ℕ) : ℚ)) ∧
    s'.f1 = round4 (2 * s'.precision * s'.«recall» /
      max (s'.precision + s'.«recall») (1 / 100000000)) ∧
    s'.fpr = round4 ((s'.fp : ℚ) / ((max (s'.fp + s'.tn) 1 : ℕ) : ℚ)) ∧
    (0 ≤ s'.«recall» ∧ s'.«recall» ≤ 1) ∧
    (0 ≤ s'.precision ∧ s'.precision ≤ 1) ∧
    (0 ≤ s'.f1 ∧ s'.f1 ≤ 1) ∧
    (0 ≤ s'.fpr ∧ s'.fpr ≤ 1) ∧
    (s'.precision + s'.«recall» = 0 → s'.f1 = 0) := by
  obtain ⟨hr0, hr1⟩ := count_ratio_mem_unit t.tp t.fn
  obtain ⟨hp0, hp1⟩ := count_ratio_mem_unit t.tp t.fp
  obtain ⟨hq0, hq1⟩ := count_ratio_mem_unit t.fp t.tn
  have hR := round4_mem_unit hr0 hr1
  have hP := round4_mem_unit hp0 hp1
  have hQ := round4_mem_unit hq0 hq1
  have hF := f1_ratio_mem_unit hP.1 hP.2 hR.1 hR.2
  have hF4 := round4_mem_unit hF.1 hF.2
  refine ⟨by simp [recomputeMetrics], by simp [recomputeMetrics],
    by simp [recomputeMetrics], by simp [recomputeMetrics],
    by simpa [recomputeMetrics] using hR, by simpa [recomputeMetrics] using hP,
    by simpa [recomputeMetrics] using hF4, by simpa [recomputeMetrics] using hQ, ?_⟩
  intro hz
  simp only [recomputeMetrics] at hz ⊢
  have hp : round4 ((t.tp : ℚ) / ((max (t.tp + t.fp) 1 : ℕ) : ℚ)) = 0 := by
    linarith [hP.1, hR.1]
  have hr : round4 ((t.tp : ℚ) / ((max (t.tp + t.fn) 1 : ℕ) : ℚ)) = 0 := by
    linarith [hP.1, hR.1]
  simp only [hp, hr]
  norm_num [round4_zero]

/-- C1: The running-state guard is NOT always released.  When the AttackRun
header commit raises — persistence code at lines 58-68 of
`services/attack_simulation.py`, which runs after the guard is set but before
the `try`/`finally` — the invocation raises with `attack_running` still
`true`, so the guard is never released and every later invocation is rejected.
By contrast, the same persistence failure one commit later (the run-mode
commit, inside the `try`) is cleaned up and the guard is released: the
`finally` was clearly intended to cover all failures after the guard is set,
and the header block placement is the slip. -/
theorem run_attack_header_failure_leaves_guard_set :
    (run_attack cfg100 envFallback (some dbHeaderFail) g0 "ab"
      ⟨false, emptyStats⟩).gstate.attack_running = true ∧
    (run_attack cfg100 envFallback (some dbHeaderFail) g0 "ab"
      ⟨false, emptyStats⟩).raised = true ∧
    (run_attack cfg100 envFallback (some dbLateFail) g0 "ab"
      ⟨false, emptyStats⟩).gstate.attack_running = false ∧
    (run_attack cfg100 envFallback (some dbLateFail) g0 "ab"
      ⟨false, emptyStats⟩).raised = true :=
  ⟨rfl, rfl, rfl, rfl⟩

/-- C3: Invoking `run_attack` while `attack_running` is `true` yields exactly
the one conflict error event and terminates with no state mutation: the
globals (the guard and the active run's `current_stats`, with every counter
and derived metric) are returned untouched, no DB state is touched and nothing
is raised. -/
theorem run_attack_conflict_rejected_without_mutation
    (cfg : AttackConfig) (env : Env) (d : Option Db) (g : ℕ → ℕ) (pfx : String)
    (gs : GState) (h : gs.attack_running = true) :
    run_attack cfg env d g pfx gs =
      { events := [Event.error "Attack already running!"], gstate := gs,
        db := none, raised := false } := by
  simp [run_attack, h]

lemma eraseIdx_map_comm (f : α → β) :
    ∀ (l : List α) (j : ℕ), (l.map f).eraseIdx j = (l.eraseIdx j).map f := by
  intro l
  induction l with
  | nil => intro j; simp
  | cons x xs ih =>
    intro j
    cases j with
    | zero => simp
    | succ j => simp [List.eraseIdx_cons_succ, ih j]

lemma getD_map_my (f : α → β) :
    ∀ (l : List α) (j : ℕ) (d : α), (l.map f).getD j (f d) = f (l.getD j d) := by
  intro l
  induction l with
  | nil => intro j d; simp
  | cons x xs ih => intro j d; cases j <;> simp [ih]

lemma perm_getD_cons_eraseIdx :
    ∀ (l : List α) (j : ℕ), j < l.length → ∀ d : α,
      l.Perm (l.getD j d :: l.eraseIdx j) := by
  intro l
  induction l with
  | nil => intro j hj; simp at hj
  | cons x xs ih =>
    intro j hj d
    cases j with
    | zero => simp
    | succ j =>
      have hj' : j < xs.length := by simpa using hj
      have h1 : (x :: xs).Perm (x :: xs.getD j d :: xs.eraseIdx j) :=
        (ih j hj' d).cons x
      have h2 : (x :: xs.getD j d :: xs.eraseIdx j).Perm
          (xs.getD j d :: x :: xs.eraseIdx j) := List.Perm.swap _ _ _
      have h3 := h1.trans h2
      simpa [List.eraseIdx_cons_succ] using h3

lemma shuffleAux_perm (g : ℕ → ℕ) :
    ∀ (fuel c : ℕ) (l : List α), (shuffleAux g fuel c l).Perm l := by
  intro fuel
  induction fuel with
  | zero =>
    intro c l
    cases l <;> simp [shuffleAux]
  | succ fuel ih =>
    intro c l
    cases l with
    | nil => simp [shuffleAux]
    | cons x xs =>
      have hlt : g c % (x :: xs).length < (x :: xs).length :=
        Nat.mod_lt _ (by simp)
      have h1 : shuffleAux g (fuel + 1) c (x :: xs) =
          (x :: xs).getD (g c % (x :: xs).length) x ::
            shuffleAux g fuel (c + 1)
              ((x :: xs).eraseIdx (g c % (x :: xs).length)) := by
        simp [shuffleAux]
      rw [h1]
      exact ((ih (c + 1) _).cons _).trans
        (perm_getD_cons_eraseIdx _ _ hlt _).symm

lemma shuffle_perm (g : ℕ → ℕ) (c : ℕ) (l : List α) : (shuffle g c l).Perm l :=
  shuffleAux_perm g l.length c l

lemma shuffleAux_map (f : α → β) (g : ℕ → ℕ) :
    ∀ (fuel c : ℕ) (l : List α),
      shuffleAux g fuel c (l.map f) = (shuffleAux g fuel c l).map f := by
  intro fuel
  induction fuel with
  | zero =>
    intro c l
    cases l <;> simp [shuffleAux]
  | succ fuel ih =>
    intro c l
    cases l with
    | nil => simp [shuffleAux]
    | cons x xs =>
      show shuffleAux g (fuel + 1) c (f x :: xs.map f) = _
      have hlen : (f x :: xs.map f).length = xs.length + 1 := by simp
      have h1 : shuffleAux g (fuel + 1) c (f x :: xs.map f) =
          (f x :: xs.map f).getD (g c % (xs.length + 1)) (f x) ::
            shuffleAux g fuel (c + 1)
              ((f x :: xs.map f).eraseIdx (g c % (xs.length + 1))) := by
        simp [shuffleAux]
      have h2 : shuffleAux g (fuel + 1) c (x :: xs) =
          (x :: xs).getD (g c % (xs.length + 1)) x ::
            shuffleAux g fuel (c + 1)
              ((x :: xs).eraseIdx (g c % (xs.length + 1))) := by
        simp [shuffleAux]
      rw [h1, h2, List.map_cons]
      have h3 : (f x :: xs.map f) = (x :: xs).map f := by simp
      rw [h3, getD_map_my, eraseIdx_map_comm, ih]

lemma shuffle_map (f : α → β) (g : ℕ → ℕ) (c : ℕ) (l : List α) :
    shuffle g c (l.map f) = (shuffle g c l).map f := by
  simp only [shuffle, List.length_map]
  exact shuffleAux_map f g l.length c l

lemma drawInt_bounds (g : ℕ → ℕ) (c lo hi : ℕ) (h : lo < hi) :
    lo ≤ drawInt g c lo hi ∧ drawInt g c lo hi < hi := by
  unfold drawInt
  have := Nat.mod_lt (g c) (y := hi - lo) (by omega)
  omega

/-- C5: When the upstream scoring call raises for a transaction, the
`run_attack` loop body still assigns it a risk score in `[0,1]` — the rounded
Beta(5,2) draw when its ground truth is fraud, the rounded Beta(1,8) draw
otherwise — and flags it exactly when the score reaches the run's last known
or default (0.5) threshold; the transaction is not dropped: it is aggregated
into the stats, appended to the session rows when a session is present, and
emitted as a transaction event. -/
theorem run_attack_scorer_fallback_keeps_transaction
    (env : Env) (d : Option Db) (threshold : ℚ) (n i : ℕ) (t : Txn)
    (st : LoopSt)
    (hscore : env.score i ⟨t.txn_id, t.is_fraud, t.fraud_type⟩ = none)
    (hcommit : ∀ dd s, d = some dd → st.dbs = some s → i % 50 = 0 →
      dd.commitOk s.commits = true) :
    ∃ sc : ℚ, ∃ st1 : LoopSt,
      sc = round4 (if t.is_fraud then (env.beta 5 2 i).val
        else (env.beta 1 8 i).val) ∧
      0 ≤ sc ∧ sc ≤ 1 ∧
      scoreTxn env threshold i t = (sc, decide (sc ≥ threshold)) ∧
      procTxn env d threshold n i t st = .ok st1 ∧
      st1.stats = updateStats st.stats t.is_fraud t.fraud_type
        (decide (sc ≥ threshold)) ∧
      (∃ rest, st1.events = st.events ++
        Event.txn (mkTxnEvent t sc (decide (sc ≥ threshold))
          (explainTxn env i (decide (sc ≥ threshold)))) :: rest) ∧
      (∀ dd s, d = some dd → st.dbs = some s → ∃ s1, st1.dbs = some s1 ∧
        s1.rows = s.rows ++ [mkTxnEvent t sc (decide (sc ≥ threshold))
          (explainTxn env i (decide (sc ≥ threshold)))]) := by
  obtain ⟨stats0, events0, dbs0⟩ := st
  set sc := round4 (if t.is_fraud then (env.beta 5 2 i).val
    else (env.beta 1 8 i).val) with hscDef
  have hb : 0 ≤ (if t.is_fraud then (env.beta 5 2 i).val
      else (env.beta 1 8 i).val) ∧
      (if t.is_fraud then (env.beta 5 2 i).val
        else (env.beta 1 8 i).val) ≤ 1 := by
    split
    · exact (env.beta 5 2 i).property
    · exact (env.beta 1 8 i).property
  have hmem := round4_mem_unit hb.1 hb.2
  have hsct : scoreTxn env threshold i t = (sc, decide (sc ≥ threshold)) := by
    simp only [scoreTxn, hscore]
  set fl := decide (sc ≥ threshold) with hflDef
  set ev := mkTxnEvent t sc fl (explainTxn env i fl) with hevDef
  have mkEv : mkTxnEvent t (scoreTxn env threshold i t).1
      (scoreTxn env threshold i t).2
      (explainTxn env i (scoreTxn env threshold i t).2) = ev := by
    rw [hsct]
  have hevents : ∀ s1 : StatsSnapshot, ∃ rest,
      (if i % 10 = 0 ∨ i = n - 1 then
        (events0 ++ [Event.txn ev]) ++ [Event.stats_update s1]
       else events0 ++ [Event.txn ev]) = events0 ++ Event.txn ev :: rest := by
    intro s1
    by_cases hcond : i % 10 = 0 ∨ i = n - 1
    · exact ⟨[Event.stats_update s1], by simp [hcond]⟩
    · exact ⟨[], by simp [hcond]⟩
  cases d with
  | none =>
    refine ⟨sc, ⟨updateStats stats0 t.is_fraud t.fraud_type fl,
      (if i % 10 = 0 ∨ i = n - 1 then
        (events0 ++ [Event.txn ev]) ++
          [Event.stats_update (updateStats stats0 t.is_fraud t.fraud_type fl)]
       else events0 ++ [Event.txn ev]),
      dbs0⟩, rfl, hmem.1, hmem.2, hsct, ?_, rfl, hevents _, ?_⟩
    · simp only [procTxn, hsct]
    · intro dd s hdd; cases hdd
  | some dd =>
    cases dbs0 with
    | none =>
      refine ⟨sc, ⟨updateStats stats0 t.is_fraud t.fraud_type fl,
        (if i % 10 = 0 ∨ i = n - 1 then
          (events0 ++ [Event.txn ev]) ++
            [Event.stats_update (updateStats stats0 t.is_fraud t.fraud_type fl)]
         else events0 ++ [Event.txn ev]),
        none⟩, rfl, hmem.1, hmem.2, hsct, ?_, rfl, hevents _, ?_⟩
      · simp only [procTxn, hsct]
      · intro dd' s hdd hs; cases hs
    | some s =>
      by_cases h50 : i % 50 = 0
      · have hok := hcommit dd s rfl rfl h50
        refine ⟨sc, ⟨updateStats stats0 t.is_fraud t.fraud_type fl,
          (if i % 10 = 0 ∨ i = n - 1 then
            (events0 ++ [Event.txn ev]) ++
              [Event.stats_update (updateStats stats0 t.is_fraud t.fraud_type fl)]
           else events0 ++ [Event.txn ev]),
          some { s with rows := s.rows ++ [ev], commits := s.commits + 1 }⟩,
          rfl, hmem.1, hmem.2, hsct, ?_, rfl, hevents _, ?_⟩
        · simp only [procTxn, hsct, h50, doCommit, hok]
          rfl
        · intro dd' s' hdd hs'
          cases hdd; cases hs'
          exact ⟨_, rfl, rfl⟩
      · refine ⟨sc, ⟨updateStats stats0 t.is_fraud t.fraud_type fl,
          (if i % 10 = 0 ∨ i = n - 1 then
            (events0 ++ [Event.txn ev]) ++
              [Event.stats_update (updateStats stats0 t.is_fraud t.fraud_type fl)]
           else events0 ++ [Event.txn ev]),
          some { s with rows := s.rows ++ [ev] }⟩,
          rfl, hmem.1, hmem.2, hsct, ?_, rfl, hevents _, ?_⟩
        · simp only [procTxn, hsct, h50]
          rfl
        · intro dd' s' hdd hs'
          cases hdd; cases hs'
          exact ⟨_, rfl, rfl⟩

/-- Witness for C5: the fallback path at a concrete transaction with no
session. -/
theorem run_attack_scorer_fallback_keeps_transaction_witness :
    ∃ sc : ℚ, ∃ st1 : LoopSt,
      sc = round4 (if dTxn.is_fraud then (envFallback.beta 5 2 0).val
        else (envFallback.beta 1 8 0).val) ∧
      0 ≤ sc ∧ sc ≤ 1 ∧
      scoreTxn envFallback (1/2) 0 dTxn = (sc, decide (sc ≥ (1/2 : ℚ))) ∧
      procTxn envFallback none (1/2) 1 0 dTxn ⟨emptyStats, [], none⟩ = .ok st1 ∧
      st1.stats = updateStats emptyStats dTxn.is_fraud dTxn.fraud_type
        (decide (sc ≥ (1/2 : ℚ))) ∧
      (∃ rest, st1.events = [] ++
        Event.txn (mkTxnEvent dTxn sc (decide (sc ≥ (1/2 : ℚ)))
          (explainTxn envFallback 0 (decide (sc ≥ (1/2 : ℚ))))) :: rest) ∧
      (∀ dd s, (none : Option Db) = some dd →
        (⟨emptyStats, [], none⟩ : LoopSt).dbs = some s → ∃ s1, st1.dbs = some s1 ∧
        s1.rows = s.rows ++ [mkTxnEvent dTxn sc (decide (sc ≥ (1/2 : ℚ)))
          (explainTxn envFallback 0 (decide (sc ≥ (1/2 : ℚ))))]) :=
  run_attack_scorer_fallback_keeps_transaction envFallback none (1/2) 1 0 dTxn
    ⟨emptyStats, [], none⟩ rfl (fun dd s hdd _ _ => by cases hdd)

/-- Witness for C3 at a concrete active state. -/
theorem run_attack_conflict_rejected_without_mutation_witness :
    run_attack cfg100 envFallback none g0 "ab" ⟨true, emptyStats⟩ =
      { events := [Event.error "Attack already running!"],
        gstate := ⟨true, emptyStats⟩, db := none, raised := false } :=
  run_attack_conflict_rejected_without_mutation cfg100 envFallback none g0 "ab"
    ⟨true, emptyStats⟩ rfl

/-- C7: After every stats update the derived metrics satisfy their defining
formulas (recall, precision and fpr as rounded count ratios over the freshly
updated counters, f1 as the rounded epsilon-guarded harmonic combination of the
already-rounded precision and recall), each lies in `[0,1]` for all possible
counter values including the all-zero case, and f1 is `0` whenever
`precision + recall` is `0`. -/
theorem updateStats_metrics_bounds (s : StatsSnapshot) (f : Bool)
    (ft : Option String) (fl : Bool) :
    let s' := updateStats s f ft fl
    s'.«recall» = round4 ((s'.tp : ℚ) / ((max (s'.tp + s'.fn) 1 : ℕ) : ℚ)) ∧
    s'.precision = round4 ((s'.tp : ℚ) / ((max (s'.tp + s'.fp) 1 : ℕ) : ℚ)) ∧
    s'.f1 = round4 (2 * s'.precision * s'.«recall» /
      max (s'.precision + s'.«recall») (1 / 100000000)) ∧
    s'.fpr = round4 ((s'.fp : ℚ) / ((max (s'.fp + s'.tn) 1 : ℕ) : ℚ)) ∧
    (0 ≤ s'.«recall» ∧ s'.«recall» ≤ 1) ∧
    (0 ≤ s'.precision ∧ s'.precision ≤ 1) ∧
    (0 ≤ s'.f1 ∧ s'.f1 ≤ 1) ∧
    (0 ≤ s'.fpr ∧ s'.fpr ≤ 1) ∧
    (s'.precision + s'.«recall» = 0 → s'.f1 = 0) :=
  recomputeMetrics_spec (updateCounts s f ft fl)

end Aegis

namespace Aegis

lemma gen_normal_pfx (g : ℕ → ℕ) (c tid : ℕ) (bt : PyDateTime) (p1 p2 : String) :
    eraseId (gen_normal g c tid bt p1).1 = eraseId (gen_normal g c tid bt p2).1 ∧
    (gen_normal g c tid bt p1).2 = (gen_normal g c tid bt p2).2 :=
  ⟨rfl, rfl⟩

lemma gen_velocity_pfx (g : ℕ → ℕ) (c tid : ℕ) (bt : PyDateTime) (p1 p2 : String) :
    (gen_velocity g c tid bt p1).1.map eraseId =
      (gen_velocity g c tid bt p2).1.map eraseId ∧
    (gen_velocity g c tid bt p1).2 = (gen_velocity g c tid bt p2).2 := by
  refine ⟨?_, rfl⟩
  simp only [gen_velocity, List.map_map]
  rfl

lemma gen_card_testing_pfx (g : ℕ → ℕ) (c tid : ℕ) (bt : PyDateTime)
    (p1 p2 : String) :
    (gen_card_testing g c tid bt p1).1.map eraseId =
      (gen_card_testing g c tid bt p2).1.map eraseId ∧
    (gen_card_testing g c tid bt p1).2 = (gen_card_testing g c tid bt p2).2 := by
  refine ⟨?_, rfl⟩
  simp only [gen_card_testing, List.map_append, List.map_map]
  rfl

lemma collusionMember_pfx (g : ℕ → ℕ) (c tid : ℕ) (bt : PyDateTime)
    (p1 p2 : String) (iss : Issuer) (target : String) (m nm acc : ℕ) :
    (collusionMember g c tid bt p1 iss target m nm acc).1.map eraseId =
      (collusionMember g c tid bt p2 iss target m nm acc).1.map eraseId ∧
    (collusionMember g c tid bt p1 iss target m nm acc).2 =
      (collusionMember g c tid bt p2 iss target m nm acc).2 := by
  refine ⟨?_, rfl⟩
  simp only [collusionMember, List.map_map]
  rfl

lemma collusionMembers_pfx (g : ℕ → ℕ) (tid : ℕ) (bt : PyDateTime)
    (p1 p2 : String) (iss : Issuer) (target : String) (nm : ℕ) :
    ∀ rem m c acc,
      (collusionMembers g tid bt p1 iss target nm rem m c acc).1.map eraseId =
        (collusionMembers g tid bt p2 iss target nm rem m c acc).1.map eraseId ∧
      (collusionMembers g tid bt p1 iss target nm rem m c acc).2 =
        (collusionMembers g tid bt p2 iss target nm rem m c acc).2 := by
  intro rem
  induction rem with
  | zero => intro m c acc; exact ⟨rfl, rfl⟩
  | succ rem ih =>
    intro m c acc
    obtain ⟨hm, hc⟩ := collusionMember_pfx g c tid bt p1 p2 iss target m nm acc
    have hlen : (collusionMember g c tid bt p1 iss target m nm acc).1.length =
        (collusionMember g c tid bt p2 iss target m nm acc).1.length := by
      have := congrArg List.length hm
      simpa using this
    simp only [collusionMembers, List.map_append]
    constructor
    · rw [hm, hc, hlen, (ih (m + 1) _ _).1]
    · rw [hc, hlen, (ih (m + 1) _ _).2]

lemma gen_collusion_pfx (g : ℕ → ℕ) (c tid : ℕ) (bt : PyDateTime)
    (p1 p2 : String) :
    (gen_collusion g c tid bt p1).1.map eraseId =
      (gen_collusion g c tid bt p2).1.map eraseId ∧
    (gen_collusion g c tid bt p1).2 = (gen_collusion g c tid bt p2).2 := by
  simp only [gen_collusion]
  exact collusionMembers_pfx g tid bt p1 p2 _ _ _ _ _ _ _

lemma gen_geo_pfx (g : ℕ → ℕ) (c tid : ℕ) (bt : PyDateTime) (p1 p2 : String) :
    (gen_geo g c tid bt p1).1.map eraseId =
      (gen_geo g c tid bt p2).1.map eraseId ∧
    (gen_geo g c tid bt p1).2 = (gen_geo g c tid bt p2).2 :=
  ⟨rfl, rfl⟩

lemma gen_amount_pfx (g : ℕ → ℕ) (c tid : ℕ) (bt : PyDateTime) (p1 p2 : String) :
    (gen_amount g c tid bt p1).1.map eraseId =
      (gen_amount g c tid bt p2).1.map eraseId ∧
    (gen_amount g c tid bt p1).2 = (gen_amount g c tid bt p2).2 :=
  ⟨rfl, rfl⟩

lemma normalLoop_pfx (g : ℕ → ℕ) (bt : PyDateTime) (p1 p2 : String) :
    ∀ k tid c,
      (normalLoop g bt p1 k tid c).1.map eraseId =
        (normalLoop g bt p2 k tid c).1.map eraseId ∧
      (normalLoop g bt p1 k tid c).2 = (normalLoop g bt p2 k tid c).2 := by
  intro k
  induction k with
  | zero => intro tid c; exact ⟨rfl, rfl⟩
  | succ k ih =>
    intro tid c
    obtain ⟨h1, h2⟩ := gen_normal_pfx g c tid bt p1 p2
    simp only [normalLoop, List.map_cons]
    constructor
    · rw [h1, h2, (ih (tid + 1) _).1]
    · rw [h2, (ih (tid + 1) _).2]

lemma groupLoop_pfx (gen1 gen2 : ℕ → ℕ → List Txn × ℕ)
    (h : ∀ c tid, (gen1 c tid).1.map eraseId = (gen2 c tid).1.map eraseId ∧
      (gen1 c tid).2 = (gen2 c tid).2) :
    ∀ reps tid c,
      (groupLoop gen1 reps tid c).1.map eraseId =
        (groupLoop gen2 reps tid c).1.map eraseId ∧
      (groupLoop gen1 reps tid c).2 = (groupLoop gen2 reps tid c).2 := by
  intro reps
  induction reps with
  | zero => intro tid c; exact ⟨rfl, rfl⟩
  | succ reps ih =>
    intro tid c
    obtain ⟨h1, h2⟩ := h c tid
    have hlen : (gen1 c tid).1.length = (gen2 c tid).1.length := by
      have := congrArg List.length h1
      simpa using this
    simp only [groupLoop, List.map_append]
    constructor
    · rw [h1, h2, hlen, (ih _ _).1]
    · rw [h2, hlen, (ih _ _).2]

lemma batchCore_pfx (g : ℕ → ℕ) (nft nn : ℕ) (p1 p2 : String) :
    (batchCore g nft nn p1).map eraseId = (batchCore g nft nn p2).map eraseId := by
  have hn := normalLoop_pfx g batchBaseTime p1 p2 nn 1 0
  have hv := groupLoop_pfx _ _
    (fun c tid => gen_velocity_pfx g c tid batchBaseTime p1 p2)
  have hcd := groupLoop_pfx _ _
    (fun c tid => gen_card_testing_pfx g c tid batchBaseTime p1 p2)
  have hcl := groupLoop_pfx _ _
    (fun c tid => gen_collusion_pfx g c tid batchBaseTime p1 p2)
  have hg := groupLoop_pfx _ _
    (fun c tid => gen_geo_pfx g c tid batchBaseTime p1 p2)
  have ha := groupLoop_pfx _ _
    (fun c tid => gen_amount_pfx g c tid batchBaseTime p1 p2)
  simp only [batchCore]
  rw [hn.2, (hv _ _ _).2, (hcd _ _ _).2, (hcl _ _ _).2, (hg _ _ _).2]
  rw [← shuffle_map, ← shuffle_map, (ha _ _ _).2]
  congr 1
  simp only [List.map_append]
  rw [hn.1, (hv _ _ _).1, (hcd _ _ _).1, (hcl _ _ _).1, (hg _ _ _).1, (ha _ _ _).1]

/-- C6: Two calls of `generate_attack_batch` with the same draw stream (the
same seed), total and fraud percentage but different run-id values produce
transaction sequences that are identical in every generated field except the
run-id dependent `txn_id` string: erasing `txn_id` makes the outputs equal
elementwise, so the run-id affects no other generated value (timestamps,
payers, merchants, cities, amounts, fraud flags, fraud types and ordering all
agree). -/
theorem generate_attack_batch_prefix_independent (g : ℕ → ℕ) (total : ℕ)
    (fraud_pct : ℚ) (p1 p2 : String) :
    (generate_attack_batch g total fraud_pct p1).map eraseId =
      (generate_attack_batch g total fraud_pct p2).map eraseId := by
  unfold generate_attack_batch
  exact batchCore_pfx g _ _ p1 p2

end Aegis

namespace Aegis

lemma getD_map_range (f : ℕ → α) (n j : ℕ) (h : j < n) (d : α) :
    ((List.range n).map f).getD j d = f j := by
  rw [List.getD_eq_getElem?_getD]
  simp [List.getElem?_map, List.getElem?_range, h]

lemma getD_append_left_my (l1 l2 : List α) (j : ℕ) (h : j < l1.length) (d : α) :
    (l1 ++ l2).getD j d = l1.getD j d := by
  rw [List.getD_eq_getElem?_getD, List.getD_eq_getElem?_getD,
    List.getElem?_append, if_pos h]

lemma getD_append_last (l1 : List α) (b d : α) :
    (l1 ++ [b]).getD l1.length d = b := by
  rw [List.getD_eq_getElem?_getD, List.getElem?_append_right (le_refl _)]
  simp

/-- C8: For every draw stream, a `gen_card_testing` group ends with exactly one
transaction whose `amount_idr` exceeds the `amount_idr` of every prior probe in
the group by a factor of at least 50: the final large purchase has at least one
prior probe and dominates each of them by at least 50x, and no other
transaction of the group both has a prior probe and dominates all of its prior
probes that way (the first probe has no prior probe to exceed, and every later
probe is dominated 50x by none of its predecessors' requirement). -/
theorem gen_card_testing_big_purchase_unique (g : ℕ → ℕ) (c tid : ℕ)
    (bt : PyDateTime) (p : String) :
    let l := (gen_card_testing g c tid bt p).1
    5 ≤ l.length ∧
    (0 < l.length - 1 ∧ ∀ j, j < l.length - 1 →
      50 * (l.getD j dTxn).amount_idr ≤ (l.getD (l.length - 1) dTxn).amount_idr) ∧
    (∀ i, i < l.length - 1 → ¬ (0 < i ∧ ∀ j, j < i →
      50 * (l.getD j dTxn).amount_idr ≤ (l.getD i dTxn).amount_idr)) := by
  intro l
  obtain ⟨hn4, hn8⟩ := drawInt_bounds g (c + 2) 4 8 (by norm_num)
  set n := drawInt g (c + 2) 4 8 with hn
  have hlen : l.length = n + 1 := by
    simp [l, gen_card_testing]
  have hprobe : ∀ j, j < n →
      (l.getD j dTxn).amount_idr = drawInt g (c + 3 + 4 * j) 10000 35000 := by
    intro j hj
    show ((_ ++ [_]).getD j dTxn).amount_idr = _
    rw [getD_append_left_my _ _ j (by simpa using hj), getD_map_range _ _ _ hj]
  have hbig : (l.getD n dTxn).amount_idr =
      drawInt g (c + 3 + 4 * n) 3000000 10000000 := by
    show ((_ ++ [_]).getD n dTxn).amount_idr = _
    rw [List.getD_eq_getElem?_getD, List.getElem?_append,
      if_neg (by simp), List.length_map, List.length_range, Nat.sub_self]
    rfl
  have hprobeBounds : ∀ j, j < n →
      10000 ≤ (l.getD j dTxn).amount_idr ∧ (l.getD j dTxn).amount_idr < 35000 := by
    intro j hj
    rw [hprobe j hj]
    exact drawInt_bounds g _ 10000 35000 (by norm_num)
  have hbigBounds : 3000000 ≤ (l.getD n dTxn).amount_idr := by
    rw [hbig]
    exact (drawInt_bounds g _ 3000000 10000000 (by norm_num)).1
  refine ⟨by omega, ⟨by omega, ?_⟩, ?_⟩
  · intro j hj
    have hj' : j < n := by omega
    have h1 := (hprobeBounds j hj').2
    have h2 : l.length - 1 = n := by omega
    rw [h2]
    omega
  · intro i hi ⟨hi0, hdom⟩
    have hi' : i < n := by omega
    have h0 := (hprobeBounds 0 (by omega)).1
    have hdom0 := hdom 0 hi0
    have hup := (hprobeBounds i hi').2
    omega

end Aegis

namespace Aegis

lemma wf_of_fraud (t : Txn) (a : String) (ha : a ∈ archetypes)
    (h1 : t.is_fraud = true) (h2 : t.fraud_type = some a) : TxnWellFormed t := by
  refine ⟨?_, ?_⟩
  · rw [h1, h2]; simp
  · intro b hb
    rw [h2] at hb
    cases hb
    exact ha

lemma wf_of_normal (t : Txn) (h1 : t.is_fraud = false) (h2 : t.fraud_type = none) :
    TxnWellFormed t := by
  refine ⟨?_, ?_⟩
  · rw [h1, h2]; simp
  · intro b hb
    rw [h2] at hb
    cases hb

lemma gen_velocity_mem (g : ℕ → ℕ) (c tid : ℕ) (bt : PyDateTime) (p : String) :
    ∀ t ∈ (gen_velocity g c tid bt p).1,
      t.is_fraud = true ∧ t.fraud_type = some "velocity_attack" := by
  intro t ht
  simp only [gen_velocity, List.mem_map, List.mem_range] at ht
  obtain ⟨i, _, rfl⟩ := ht
  exact ⟨rfl, rfl⟩

lemma gen_card_testing_mem (g : ℕ → ℕ) (c tid : ℕ) (bt : PyDateTime) (p : String) :
    ∀ t ∈ (gen_card_testing g c tid bt p).1,
      t.is_fraud = true ∧ t.fraud_type = some "card_testing" := by
  intro t ht
  simp only [gen_card_testing, List.mem_append, List.mem_map, List.mem_range,
    List.mem_singleton] at ht
  rcases ht with ⟨i, _, rfl⟩ | rfl
  · exact ⟨rfl, rfl⟩
  · exact ⟨rfl, rfl⟩

lemma collusionMember_mem (g : ℕ → ℕ) (c tid : ℕ) (bt : PyDateTime) (p : String)
    (iss : Issuer) (target : String) (m nm acc : ℕ) :
    ∀ t ∈ (collusionMember g c tid bt p iss target m nm acc).1,
      t.is_fraud = true ∧ t.fraud_type = some "collusion_ring" := by
  intro t ht
  simp only [collusionMember, List.mem_map, List.mem_range] at ht
  obtain ⟨i, _, rfl⟩ := ht
  exact ⟨rfl, rfl⟩

lemma collusionMembers_mem (g : ℕ → ℕ) (tid : ℕ) (bt : PyDateTime) (p : String)
    (iss : Issuer) (target : String) (nm : ℕ) :
    ∀ rem m c acc, ∀ t ∈ (collusionMembers g tid bt p iss target nm rem m c acc).1,
      t.is_fraud = true ∧ t.fraud_type = some "collusion_ring" := by
  intro rem
  induction rem with
  | zero => intro m c acc t ht; simp [collusionMembers] at ht
  | succ rem ih =>
    intro m c acc t ht
    simp only [collusionMembers, List.mem_append] at ht
    rcases ht with h | h
    · exact collusionMember_mem g c tid bt p iss target m nm acc t h
    · exact ih (m + 1) _ _ t h

lemma gen_collusion_mem (g : ℕ → ℕ) (c tid : ℕ) (bt : PyDateTime) (p : String) :
    ∀ t ∈ (gen_collusion g c tid bt p).1,
      t.is_fraud = true ∧ t.fraud_type = some "collusion_ring" := by
  intro t ht
  simp only [gen_collusion] at ht
  exact collusionMembers_mem g tid bt p _ _ _ _ _ _ _ t ht

lemma gen_geo_mem (g : ℕ → ℕ) (c tid : ℕ) (bt : PyDateTime) (p : String) :
    ∀ t ∈ (gen_geo g c tid bt p).1,
      t.is_fraud = true ∧ t.fraud_type = some "geo_anomaly" := by
  intro t ht
  simp only [gen_geo, List.mem_cons, List.not_mem_nil, or_false] at ht
  rcases ht with rfl | rfl
  · exact ⟨rfl, rfl⟩
  · exact ⟨rfl, rfl⟩

lemma gen_amount_mem (g : ℕ → ℕ) (c tid : ℕ) (bt : PyDateTime) (p : String) :
    ∀ t ∈ (gen_amount g c tid bt p).1,
      t.is_fraud = true ∧ t.fraud_type = some "amount_anomaly" := by
  intro t ht
  simp only [gen_amount, List.mem_singleton] at ht
  subst ht
  exact ⟨rfl, rfl⟩

lemma normalLoop_mem (g : ℕ → ℕ) (bt : PyDateTime) (p : String) :
    ∀ k tid c, ∀ t ∈ (normalLoop g bt p k tid c).1,
      t.is_fraud = false ∧ t.fraud_type = none := by
  intro k
  induction k with
  | zero => intro tid c t ht; simp [normalLoop] at ht
  | succ k ih =>
    intro tid c t ht
    simp only [normalLoop, List.mem_cons] at ht
    rcases ht with rfl | h
    · exact ⟨rfl, rfl⟩
    · exact ih (tid + 1) _ t h

lemma groupLoop_mem (gen : ℕ → ℕ → List Txn × ℕ) (P : Txn → Prop)
    (h : ∀ c tid, ∀ t ∈ (gen c tid).1, P t) :
    ∀ reps tid c, ∀ t ∈ (groupLoop gen reps tid c).1, P t := by
  intro reps
  induction reps with
  | zero => intro tid c t ht; simp [groupLoop] at ht
  | succ reps ih =>
    intro tid c t ht
    simp only [groupLoop, List.mem_append] at ht
    rcases ht with hm | hm
    · exact h _ _ t hm
    · exact ih _ _ t hm

lemma batchCore_mem (g : ℕ → ℕ) (nft nn : ℕ) (p : String) :
    ∀ t ∈ batchCore g nft nn p, TxnWellFormed t := by
  intro t ht
  simp only [batchCore] at ht
  rw [(shuffle_perm g _ _).mem_iff] at ht
  simp only [List.mem_append] at ht
  rcases ht with ((((h | h) | h) | h) | h) | h
  · obtain ⟨h1, h2⟩ := normalLoop_mem g batchBaseTime p _ _ _ t h
    exact wf_of_normal t h1 h2
  · obtain ⟨h1, h2⟩ := groupLoop_mem _ _
      (fun c tid => gen_velocity_mem g c tid batchBaseTime p) _ _ _ t h
    exact wf_of_fraud t _ (by simp [archetypes]) h1 h2
  · obtain ⟨h1, h2⟩ := groupLoop_mem _ _
      (fun c tid => gen_card_testing_mem g c tid batchBaseTime p) _ _ _ t h
    exact wf_of_fraud t _ (by simp [archetypes]) h1 h2
  · obtain ⟨h1, h2⟩ := groupLoop_mem _ _
      (fun c tid => gen_collusion_mem g c tid batchBaseTime p) _ _ _ t h
    exact wf_of_fraud t _ (by simp [archetypes]) h1 h2
  · obtain ⟨h1, h2⟩ := groupLoop_mem _ _
      (fun c tid => gen_geo_mem g c tid batchBaseTime p) _ _ _ t h
    exact wf_of_fraud t _ (by simp [archetypes]) h1 h2
  · obtain ⟨h1, h2⟩ := groupLoop_mem _ _
      (fun c tid => gen_amount_mem g c tid batchBaseTime p) _ _ _ t h
    exact wf_of_fraud t _ (by simp [archetypes]) h1 h2

end Aegis

namespace Aegis

lemma gen_velocity_len (g : ℕ → ℕ) (c tid : ℕ) (bt : PyDateTime) (p : String) :
    8 ≤ (gen_velocity g c tid bt p).1.length ∧
      (gen_velocity g c tid bt p).1.length < 13 := by
  simp only [gen_velocity, List.length_map, List.length_range]
  exact drawInt_bounds g (c + 2) 8 13 (by norm_num)

lemma gen_card_testing_len (g : ℕ → ℕ) (c tid : ℕ) (bt : PyDateTime) (p : String) :
    5 ≤ (gen_card_testing g c tid bt p).1.length := by
  simp only [gen_card_testing, List.length_append, List.length_map,
    List.length_range, List.length_singleton]
  have := (drawInt_bounds g (c + 2) 4 8 (by norm_num)).1
  omega

lemma collusionMember_len (g : ℕ → ℕ) (c tid : ℕ) (bt : PyDateTime) (p : String)
    (iss : Issuer) (target : String) (m nm acc : ℕ) :
    2 ≤ (collusionMember g c tid bt p iss target m nm acc).1.length := by
  simp only [collusionMember, List.length_map, List.length_range]
  exact (drawInt_bounds g (c + 1) 2 4 (by norm_num)).1

lemma collusionMembers_len (g : ℕ → ℕ) (tid : ℕ) (bt : PyDateTime) (p : String)
    (iss : Issuer) (target : String) (nm : ℕ) :
    ∀ rem m c acc,
      2 * rem ≤ (collusionMembers g tid bt p iss target nm rem m c acc).1.length := by
  intro rem
  induction rem with
  | zero => intro m c acc; simp [collusionMembers]
  | succ rem ih =>
    intro m c acc
    simp only [collusionMembers, List.length_append]
    have h1 := collusionMember_len g c tid bt p iss target m nm acc
    have h2 := ih (m + 1)
      (collusionMember g c tid bt p iss target m nm acc).2
      (acc + (collusionMember g c tid bt p iss target m nm acc).1.length)
    omega

lemma gen_collusion_len (g : ℕ → ℕ) (c tid : ℕ) (bt : PyDateTime) (p : String) :
    6 ≤ (gen_collusion g c tid bt p).1.length := by
  simp only [gen_collusion]
  have h3 := (drawInt_bounds g (c + 2) 3 6 (by norm_num)).1
  have := collusionMembers_len g tid bt p
    (drawChoice g c ISSUERS dIssuer) (drawChoice g (c + 1) MERCHANT_NAMES "")
    (drawInt g (c + 2) 3 6) (drawInt g (c + 2) 3 6) 0 (c + 3) 0
  omega

lemma gen_geo_len (g : ℕ → ℕ) (c tid : ℕ) (bt : PyDateTime) (p : String) :
    (gen_geo g c tid bt p).1.length = 2 := rfl

lemma gen_amount_len (g : ℕ → ℕ) (c tid : ℕ) (bt : PyDateTime) (p : String) :
    (gen_amount g c tid bt p).1.length = 1 := rfl

lemma headD_prop (P : Txn → Prop) (l : List Txn) (h1 : 1 ≤ l.length)
    (h2 : ∀ t ∈ l, P t) : P (l.headD dTxn) := by
  cases l with
  | nil => simp at h1
  | cons x xs => exact h2 x (by simp)

lemma filler_generate_single_wf (g : ℕ → ℕ) (c : ℕ) (fraud_ratio : ℚ)
    (txn_counter : ℕ) (bt : PyDateTime) (pfx : String) :
    TxnWellFormed (filler_generate_single g c fraud_ratio txn_counter bt pfx) := by
  unfold filler_generate_single
  split
  · have h5 : g (c + 1) % 5 < 5 := Nat.mod_lt _ (by norm_num)
    set idx := g (c + 1) % 5 with hidx
    clear_value idx
    interval_cases idx <;>
      simp only [List.getD, List.get?_cons_zero, List.get?_cons_succ,
        List.getElem?_cons_zero, List.getElem?_cons_succ, Option.getD_some]
    · exact headD_prop _ _ (by have := gen_velocity_len g (c + 2) txn_counter bt pfx; omega)
        (fun t ht => by
          obtain ⟨a, b⟩ := gen_velocity_mem g (c + 2) txn_counter bt pfx t ht
          exact wf_of_fraud t _ (by simp [archetypes]) a b)
    · exact headD_prop _ _ (by have := gen_card_testing_len g (c + 2) txn_counter bt pfx; omega)
        (fun t ht => by
          obtain ⟨a, b⟩ := gen_card_testing_mem g (c + 2) txn_counter bt pfx t ht
          exact wf_of_fraud t _ (by simp [archetypes]) a b)
    · exact headD_prop _ _ (by have := gen_collusion_len g (c + 2) txn_counter bt pfx; omega)
        (fun t ht => by
          obtain ⟨a, b⟩ := gen_collusion_mem g (c + 2) txn_counter bt pfx t ht
          exact wf_of_fraud t _ (by simp [archetypes]) a b)
    · exact headD_prop _ _ (by have := gen_geo_len g (c + 2) txn_counter bt pfx; omega)
        (fun t ht => by
          obtain ⟨a, b⟩ := gen_geo_mem g (c + 2) txn_counter bt pfx t ht
          exact wf_of_fraud t _ (by simp [archetypes]) a b)
    · exact headD_prop _ _ (by have := gen_amount_len g (c + 2) txn_counter bt pfx; omega)
        (fun t ht => by
          obtain ⟨a, b⟩ := gen_amount_mem g (c + 2) txn_counter bt pfx t ht
          exact wf_of_fraud t _ (by simp [archetypes]) a b)
  · exact wf_of_normal _ rfl rfl

end Aegis

namespace Aegis

lemma bump_keys (m : List (Option String × ℕ)) (k : Option String) :
    ∀ x ∈ (bump m k).map Prod.fst, x ∈ m.map Prod.fst ∨ x = k := by
  intro x hx
  unfold bump at hx
  split at hx
  · left
    rw [List.map_map] at hx
    obtain ⟨p, hp, hfx⟩ := List.mem_map.1 hx
    refine List.mem_map.2 ⟨p, hp, ?_⟩
    rw [← hfx]
    by_cases hpk : p.1 = k <;> simp [hpk]
  · rw [List.map_append] at hx
    rcases List.mem_append.1 hx with h | h
    · exact Or.inl h
    · right
      simpa using h

lemma updateStats_keys (s : StatsSnapshot) (f : Bool) (ft : Option String)
    (fl : Bool) (hft : f = true → ∃ a ∈ archetypes, ft = some a)
    (hs : ∀ k, (k ∈ s.per_type.map Prod.fst ∨
      k ∈ s.per_type_total.map Prod.fst) → ∃ a ∈ archetypes, k = some a) :
    ∀ k, (k ∈ (updateStats s f ft fl).per_type.map Prod.fst ∨
      k ∈ (updateStats s f ft fl).per_type_total.map Prod.fst) →
      ∃ a ∈ archetypes, k = some a := by
  intro k hk
  cases f with
  | false =>
    cases fl <;>
      simp only [updateStats, updateCounts, recomputeMetrics] at hk <;>
      exact hs k hk
  | true =>
    cases fl with
    | false =>
      simp only [updateStats, updateCounts, recomputeMetrics] at hk
      rcases hk with h | h
      · exact hs k (Or.inl h)
      · rcases bump_keys _ _ _ h with h2 | rfl
        · exact hs k (Or.inr h2)
        · exact hft rfl
    | true =>
      simp only [updateStats, updateCounts, recomputeMetrics] at hk
      rcases hk with h | h
      · rcases bump_keys _ _ _ h with h2 | rfl
        · exact hs k (Or.inl h2)
        · exact hft rfl
      · rcases bump_keys _ _ _ h with h2 | rfl
        · exact hs k (Or.inr h2)
        · exact hft rfl

lemma foldl_statsStep_keys (l : List (Bool × Option String × Bool)) :
    (∀ u ∈ l, u.1 = true → ∃ a ∈ archetypes, u.2.1 = some a) →
    ∀ s : StatsSnapshot,
      (∀ k, (k ∈ s.per_type.map Prod.fst ∨
        k ∈ s.per_type_total.map Prod.fst) → ∃ a ∈ archetypes, k = some a) →
      ∀ k, (k ∈ (l.foldl statsStep s).per_type.map Prod.fst ∨
        k ∈ (l.foldl statsStep s).per_type_total.map Prod.fst) →
        ∃ a ∈ archetypes, k = some a := by
  induction l with
  | nil => intro _ s hs; simpa using hs
  | cons u rest ih =>
    intro hl s hs
    simp only [List.foldl_cons]
    refine ih (fun v hv => hl v (by simp [hv])) _ ?_
    exact updateStats_keys s u.1 u.2.1 u.2.2 (hl u (by simp)) hs

/-- C9: Every transaction produced by the generators — hence every element of
`generate_attack_batch`'s output, and every filler-generated transaction —
has `is_fraud = true` exactly when `fraud_type` is present, and any present
`fraud_type` is one of the five archetype names; consequently, for every
scored sequence drawn from such transactions, the stats aggregator's
`per_type` and `per_type_total` dicts are only ever keyed by archetype names,
never by `none`. -/
theorem generators_fraud_type_wellformed :
    (∀ (g : ℕ → ℕ) (total : ℕ) (fraud_pct : ℚ) (pfx : String),
      ∀ t ∈ generate_attack_batch g total fraud_pct pfx, TxnWellFormed t) ∧
    (∀ (g : ℕ → ℕ) (c : ℕ) (fraud_ratio : ℚ) (txn_counter : ℕ)
      (bt : PyDateTime) (pfx : String),
      TxnWellFormed (filler_generate_single g c fraud_ratio txn_counter bt pfx)) ∧
    (∀ l : List (Bool × Option String × Bool),
      (∀ u ∈ l, u.1 = true → ∃ a ∈ archetypes, u.2.1 = some a) →
      ∀ k, (k ∈ (l.foldl statsStep emptyStats).per_type.map Prod.fst ∨
        k ∈ (l.foldl statsStep emptyStats).per_type_total.map Prod.fst) →
        ∃ a ∈ archetypes, k = some a) := by
  refine ⟨?_, ?_, ?_⟩
  · intro g total fraud_pct pfx t ht
    unfold generate_attack_batch at ht
    exact batchCore_mem g _ _ pfx t ht
  · intro g c fraud_ratio txn_counter bt pfx
    exact filler_generate_single_wf g c fraud_ratio txn_counter bt pfx
  · intro l hl
    exact foldl_statsStep_keys l hl emptyStats (by simp [emptyStats])

/-- Witness for C9: the key discipline applied to a concrete one-update
sequence. -/
theorem generators_fraud_type_wellformed_witness :
    ∃ a ∈ archetypes, (some "velocity_attack" : Option String) = some a :=
  generators_fraud_type_wellformed.2.2
    [(true, some "velocity_attack", true)] (by simp [archetypes])
    (some "velocity_attack")
    (Or.inl (by simp [statsStep, updateStats, updateCounts, recomputeMetrics,
      bump, emptyStats]))

end Aegis

namespace Aegis

lemma range'_append_my (s m n : ℕ) :
    List.range' s m ++ List.range' (s + m) n = List.range' s (m + n) := by
  have h := List.range'_append s m n 1
  simpa [Nat.one_mul, Nat.add_comm n m] using h

lemma digitChar_val (d : ℕ) (h : d < 10) : (Nat.digitChar d).toNat - 48 = d := by
  interval_cases d <;> rfl

lemma ofDigits_replicate_zero (b : ℕ) :
    ∀ k, Nat.ofDigits b (List.replicate k 0) = 0 := by
  intro k
  induction k with
  | zero => simp [Nat.ofDigits]
  | succ k ih => simp [List.replicate_succ, Nat.ofDigits_cons, ih]

lemma decode_pad6 (n : ℕ) :
    Nat.ofDigits 10 (((pad6 n).data.map (fun ch => ch.toNat - 48)).reverse) = n := by
  have hmap : (decChars n).map (fun ch => ch.toNat - 48) =
      (Nat.digits 10 n).reverse := by
    unfold decChars
    rw [List.map_map]
    have h : ∀ d ∈ (Nat.digits 10 n).reverse,
        ((fun ch => ch.toNat - 48) ∘ Nat.digitChar) d = id d := by
      intro d hd
      exact digitChar_val d
        (Nat.digits_lt_base (by norm_num) (List.mem_reverse.1 hd))
    rw [List.map_congr_left h, List.map_id]
  have hrep : (List.replicate (6 - (decChars n).length) '0').map
      (fun ch => ch.toNat - 48) = List.replicate (6 - (decChars n).length) 0 := by
    rw [List.map_replicate]
    rfl
  show Nat.ofDigits 10
      (((List.replicate (6 - (decChars n).length) '0' ++ decChars n).map
        (fun ch => ch.toNat - 48)).reverse) = n
  rw [List.map_append, List.reverse_append, hmap, hrep, List.reverse_reverse,
    List.reverse_replicate, Nat.ofDigits_append, Nat.ofDigits_digits,
    ofDigits_replicate_zero]
  simp

lemma pad6_inj : Function.Injective pad6 := by
  intro m n h
  have h2 := congrArg (fun s : String =>
    Nat.ofDigits 10 ((s.data.map (fun ch => ch.toNat - 48)).reverse)) h
  simpa [decode_pad6] using h2

lemma string_ext_data {s t : String} (h : s.data = t.data) : s = t := by
  cases s; cases t; exact congrArg String.mk h

lemma mkTxnId_inj (p : String) : Function.Injective (mkTxnId p) := by
  intro m n h
  apply pad6_inj
  apply string_ext_data
  have hd := congrArg String.data h
  simp only [mkTxnId, String.data_append] at hd
  exact List.append_cancel_left hd

lemma gen_velocity_ids (g : ℕ → ℕ) (c tid : ℕ) (bt : PyDateTime) (p : String) :
    (gen_velocity g c tid bt p).1.map Txn.txn_id =
      (List.range' tid (gen_velocity g c tid bt p).1.length).map (mkTxnId p) := by
  simp only [gen_velocity, List.map_map, List.length_map, List.length_range]
  rw [List.range'_eq_map_range, List.map_map]
  rfl

lemma gen_card_testing_ids (g : ℕ → ℕ) (c tid : ℕ) (bt : PyDateTime) (p : String) :
    (gen_card_testing g c tid bt p).1.map Txn.txn_id =
      (List.range' tid (gen_card_testing g c tid bt p).1.length).map (mkTxnId p) := by
  simp only [gen_card_testing, List.map_append, List.map_map, List.length_append,
    List.length_map, List.length_range, List.length_singleton]
  rw [← range'_append_my tid _ 1, List.map_append]
  congr 1
  · rw [List.range'_eq_map_range, List.map_map]
    rfl

lemma collusionMember_ids (g : ℕ → ℕ) (c tid : ℕ) (bt : PyDateTime) (p : String)
    (iss : Issuer) (target : String) (m nm acc : ℕ) :
    (collusionMember g c tid bt p iss target m nm acc).1.map Txn.txn_id =
      (List.range' (tid + acc)
        (collusionMember g c tid bt p iss target m nm acc).1.length).map
        (mkTxnId p) := by
  simp only [collusionMember, List.map_map, List.length_map, List.length_range]
  rw [List.range'_eq_map_range, List.map_map]
  rfl

lemma collusionMembers_ids (g : ℕ → ℕ) (tid : ℕ) (bt : PyDateTime) (p : String)
    (iss : Issuer) (target : String) (nm : ℕ) :
    ∀ rem m c acc,
      (collusionMembers g tid bt p iss target nm rem m c acc).1.map Txn.txn_id =
        (List.range' (tid + acc)
          (collusionMembers g tid bt p iss target nm rem m c acc).1.length).map
          (mkTxnId p) := by
  intro rem
  induction rem with
  | zero => intro m c acc; simp [collusionMembers]
  | succ rem ih =>
    intro m c acc
    simp only [collusionMembers, List.map_append, List.length_append]
    rw [collusionMember_ids, ih (m + 1)]
    have hb : tid + (acc +
        (collusionMember g c tid bt p iss target m nm acc).1.length) =
        (tid + acc) +
          (collusionMember g c tid bt p iss target m nm acc).1.length := by
      omega
    rw [hb, ← List.map_append, range'_append_my]

lemma gen_collusion_ids (g : ℕ → ℕ) (c tid : ℕ) (bt : PyDateTime) (p : String) :
    (gen_collusion g c tid bt p).1.map Txn.txn_id =
      (List.range' tid (gen_collusion g c tid bt p).1.length).map (mkTxnId p) := by
  simp only [gen_collusion]
  have h := collusionMembers_ids g tid bt p (drawChoice g c ISSUERS dIssuer)
    (drawChoice g (c + 1) MERCHANT_NAMES "") (drawInt g (c + 2) 3 6)
    (drawInt g (c + 2) 3 6) 0 (c + 3) 0
  simpa using h

lemma gen_geo_ids (g : ℕ → ℕ) (c tid : ℕ) (bt : PyDateTime) (p : String) :
    (gen_geo g c tid bt p).1.map Txn.txn_id =
      (List.range' tid (gen_geo g c tid bt p).1.length).map (mkTxnId p) := rfl

lemma gen_amount_ids (g : ℕ → ℕ) (c tid : ℕ) (bt : PyDateTime) (p : String) :
    (gen_amount g c tid bt p).1.map Txn.txn_id =
      (List.range' tid (gen_amount g c tid bt p).1.length).map (mkTxnId p) := rfl

lemma normalLoop_len (g : ℕ → ℕ) (bt : PyDateTime) (p : String) :
    ∀ k tid c, (normalLoop g bt p k tid c).1.length = k := by
  intro k
  induction k with
  | zero => intro tid c; simp [normalLoop]
  | succ k ih => intro tid c; simp [normalLoop, ih (tid + 1)]

lemma normalLoop_ids (g : ℕ → ℕ) (bt : PyDateTime) (p : String) :
    ∀ k tid c, (normalLoop g bt p k tid c).1.map Txn.txn_id =
      (List.range' tid k).map (mkTxnId p) := by
  intro k
  induction k with
  | zero => intro tid c; simp [normalLoop]
  | succ k ih =>
    intro tid c
    simp only [normalLoop, List.map_cons, List.range'_succ]
    rw [ih (tid + 1)]
    rfl

lemma groupLoop_tid (gen : ℕ → ℕ → List Txn × ℕ) :
    ∀ reps tid c, (groupLoop gen reps tid c).2.1 =
      tid + (groupLoop gen reps tid c).1.length := by
  intro reps
  induction reps with
  | zero => intro tid c; simp [groupLoop]
  | succ reps ih =>
    intro tid c
    simp only [groupLoop, List.length_append]
    rw [ih]
    omega

lemma groupLoop_ids (gen : ℕ → ℕ → List Txn × ℕ) (p : String)
    (hgen : ∀ c tid, (gen c tid).1.map Txn.txn_id =
      (List.range' tid (gen c tid).1.length).map (mkTxnId p)) :
    ∀ reps tid c, (groupLoop gen reps tid c).1.map Txn.txn_id =
      (List.range' tid (groupLoop gen reps tid c).1.length).map (mkTxnId p) := by
  intro reps
  induction reps with
  | zero => intro tid c; simp [groupLoop]
  | succ reps ih =>
    intro tid c
    simp only [groupLoop, List.map_append, List.length_append]
    rw [hgen c tid, ih, ← List.map_append, range'_append_my]

end Aegis

namespace Aegis

lemma range'_append_base (s m n s2 : ℕ) (h : s2 = s + m) :
    List.range' s m ++ List.range' s2 n = List.range' s (m + n) := by
  subst h
  exact range'_append_my s m n

lemma map_range'_concat (f : ℕ → String) (n1 n2 n3 n4 n5 n6 : ℕ) :
    (List.range' 1 n1).map f ++ (List.range' (1 + n1) n2).map f ++
      (List.range' (1 + n1 + n2) n3).map f ++
      (List.range' (1 + n1 + n2 + n3) n4).map f ++
      (List.range' (1 + n1 + n2 + n3 + n4) n5).map f ++
      (List.range' (1 + n1 + n2 + n3 + n4 + n5) n6).map f =
      (List.range' 1 (n1 + n2 + n3 + n4 + n5 + n6)).map f := by
  rw [← List.map_append, ← List.map_append, ← List.map_append, ← List.map_append,
    ← List.map_append]
  congr 1
  rw [range'_append_base 1 n1 n2 (1 + n1) (by omega),
    range'_append_base 1 (n1 + n2) n3 (1 + n1 + n2) (by omega),
    range'_append_base 1 (n1 + n2 + n3) n4 (1 + n1 + n2 + n3) (by omega),
    range'_append_base 1 (n1 + n2 + n3 + n4) n5 (1 + n1 + n2 + n3 + n4) (by omega),
    range'_append_base 1 (n1 + n2 + n3 + n4 + n5) n6 (1 + n1 + n2 + n3 + n4 + n5)
      (by omega)]

lemma batchCore_ids_perm (g : ℕ → ℕ) (nft nn : ℕ) (p : String) :
    ((batchCore g nft nn p).map Txn.txn_id).Perm
      ((List.range' 1 (batchCore g nft nn p).length).map (mkTxnId p)) := by
  simp only [batchCore]
  refine ((shuffle_perm g _ _).map Txn.txn_id).trans ?_
  rw [(shuffle_perm g _ _).length_eq]
  generalize hA : normalLoop g batchBaseTime p nn 1 0 = A
  generalize hB : groupLoop (fun c tid => gen_velocity g c tid batchBaseTime p)
    (max (max (nft / 5) 2 / 10) 1) (1 + nn) A.2 = B
  generalize hC : groupLoop (fun c tid => gen_card_testing g c tid batchBaseTime p)
    (max (max (nft / 5) 2 / 7) 1) B.2.1 B.2.2 = C
  generalize hD : groupLoop (fun c tid => gen_collusion g c tid batchBaseTime p)
    (max (max (nft / 5) 2 / 8) 1) C.2.1 C.2.2 = D
  generalize hE : groupLoop (fun c tid => gen_geo g c tid batchBaseTime p)
    (max (max (nft / 5) 2 / 2) 1) D.2.1 D.2.2 = E
  generalize hF : groupLoop (fun c tid => gen_amount g c tid batchBaseTime p)
    (max (max (nft / 5) 2) 1) E.2.1 E.2.2 = F
  have hAids : A.1.map Txn.txn_id = (List.range' 1 nn).map (mkTxnId p) := by
    rw [← hA]; exact normalLoop_ids g batchBaseTime p nn 1 0
  have hAlen : A.1.length = nn := by
    rw [← hA]; exact normalLoop_len g batchBaseTime p nn 1 0
  have hBids : B.1.map Txn.txn_id =
      (List.range' (1 + nn) B.1.length).map (mkTxnId p) := by
    rw [← hB]
    exact groupLoop_ids _ p
      (fun c tid => gen_velocity_ids g c tid batchBaseTime p) _ _ _
  have hBtid : B.2.1 = 1 + nn + B.1.length := by
    rw [← hB]; exact groupLoop_tid _ _ _ _
  have hCids : C.1.map Txn.txn_id =
      (List.range' (1 + nn + B.1.length) C.1.length).map (mkTxnId p) := by
    rw [← hBtid, ← hC]
    exact groupLoop_ids _ p
      (fun c tid => gen_card_testing_ids g c tid batchBaseTime p) _ _ _
  have hCtid : C.2.1 = 1 + nn + B.1.length + C.1.length := by
    rw [← hBtid, ← hC]; exact groupLoop_tid _ _ _ _
  have hDids : D.1.map Txn.txn_id =
      (List.range' (1 + nn + B.1.length + C.1.length) D.1.length).map
        (mkTxnId p) := by
    rw [← hCtid, ← hD]
    exact groupLoop_ids _ p
      (fun c tid => gen_collusion_ids g c tid batchBaseTime p) _ _ _
  have hDtid : D.2.1 = 1 + nn + B.1.length + C.1.length + D.1.length := by
    rw [← hCtid, ← hD]; exact groupLoop_tid _ _ _ _
  have hEids : E.1.map Txn.txn_id =
      (List.range' (1 + nn + B.1.length + C.1.length + D.1.length)
        E.1.length).map (mkTxnId p) := by
    rw [← hDtid, ← hE]
    exact groupLoop_ids _ p
      (fun c tid => gen_geo_ids g c tid batchBaseTime p) _ _ _
  have hEtid : E.2.1 =
      1 + nn + B.1.length + C.1.length + D.1.length + E.1.length := by
    rw [← hDtid, ← hE]; exact groupLoop_tid _ _ _ _
  have hFids : F.1.map Txn.txn_id =
      (List.range' (1 + nn + B.1.length + C.1.length + D.1.length + E.1.length)
        F.1.length).map (mkTxnId p) := by
    rw [← hEtid, ← hF]
    exact groupLoop_ids _ p
      (fun c tid => gen_amount_ids g c tid batchBaseTime p) _ _ _
  have key : (A.1 ++ B.1 ++ C.1 ++ D.1 ++ E.1 ++ F.1).map Txn.txn_id =
      (List.range' 1 (A.1 ++ B.1 ++ C.1 ++ D.1 ++ E.1 ++ F.1).length).map
        (mkTxnId p) := by
    simp only [List.map_append, List.length_append, hAlen]
    rw [hAids, hBids, hCids, hDids, hEids, hFids]
    exact map_range'_concat (mkTxnId p) nn B.1.length C.1.length D.1.length
      E.1.length F.1.length
  rw [key]

/-- C10: Within a single `generate_attack_batch` result all `txn_id` strings
are pairwise distinct (the list of ids has no duplicate), and every
transaction's id carries the same run-id value with some sequence number: the
batch counter advances by exactly the size of each emitted group, each group
generator assigns consecutive offsets with no reuse, and the decimal sequence
rendering is injective. -/
theorem generate_attack_batch_txn_ids_nodup (g : ℕ → ℕ) (total : ℕ)
    (fraud_pct : ℚ) (pfx : String) :
    ((generate_attack_batch g total fraud_pct pfx).map Txn.txn_id).Nodup ∧
    ∀ t ∈ generate_attack_batch g total fraud_pct pfx,
      ∃ k, t.txn_id = mkTxnId pfx k := by
  have hperm := batchCore_ids_perm g
    (max (Int.toNat ⌊(total : ℚ) * fraud_pct⌋) 10)
    (total - max (Int.toNat ⌊(total : ℚ) * fraud_pct⌋) 10) pfx
  constructor
  · unfold generate_attack_batch
    rw [hperm.nodup_iff]
    exact (List.nodup_range' _ _).map (mkTxnId_inj pfx)
  · intro t ht
    have hmem : t.txn_id ∈
        (generate_attack_batch g total fraud_pct pfx).map Txn.txn_id :=
      List.mem_map_of_mem Txn.txn_id ht
    unfold generate_attack_batch at hmem
    rw [hperm.mem_iff] at hmem
    obtain ⟨k, _, hk⟩ := List.mem_map.1 hmem
    exact ⟨k, hk.symm⟩

end Aegis

namespace Aegis

lemma gab100 (g : ℕ → ℕ) (pfx : String) :
    generate_attack_batch g 100 (0.1 : ℚ) pfx = batchCore g 10 90 pfx := by
  unfold generate_attack_batch
  norm_num
  rfl

lemma procTxn_none_ok (env : Env) (thr : ℚ) (n i : ℕ) (t : Txn) (st : LoopSt) :
    procTxn env none thr n i t st =
      .ok ⟨updateStats st.stats t.is_fraud t.fraud_type (scoreTxn env thr i t).2,
        st.events ++ (Event.txn (mkTxnEvent t (scoreTxn env thr i t).1
            (scoreTxn env thr i t).2
            (explainTxn env i (scoreTxn env thr i t).2)) ::
          (if i % 10 = 0 ∨ i = n - 1 then
            [Event.stats_update (updateStats st.stats t.is_fraud t.fraud_type
              (scoreTxn env thr i t).2)]
           else [])),
        st.dbs⟩ := by
  obtain ⟨s0, e0, d0⟩ := st
  simp only [procTxn]
  by_cases hcond : i % 10 = 0 ∨ i = n - 1 <;> simp [hcond]

lemma runLoop_none_stub (env : Env) (thr : ℚ) (n : ℕ)
    (hflag : ∀ i t, (scoreTxn env thr i t).2 = t.is_fraud) :
    ∀ (txns : List Txn) (i : ℕ) (st : LoopSt), ∃ evs,
      runLoop env none thr n txns i st =
        .ok ⟨txns.foldl
            (fun s t => updateStats s t.is_fraud t.fraud_type t.is_fraud)
            st.stats,
          st.events ++ evs, st.dbs⟩ := by
  intro txns
  induction txns with
  | nil =>
    intro i st
    refine ⟨[], ?_⟩
    obtain ⟨s0, e0, d0⟩ := st
    simp [runLoop]
  | cons t rest ih =>
    intro i st
    simp only [runLoop, procTxn_none_ok, hflag i t, List.foldl_cons]
    obtain ⟨evs1, hevs1⟩ := ih (i + 1)
      ⟨updateStats st.stats t.is_fraud t.fraud_type t.is_fraud,
        st.events ++ (Event.txn (mkTxnEvent t (scoreTxn env thr i t).1
            t.is_fraud (explainTxn env i t.is_fraud)) ::
          (if i % 10 = 0 ∨ i = n - 1 then
            [Event.stats_update (updateStats st.stats t.is_fraud t.fraud_type
              t.is_fraud)]
           else [])),
        st.dbs⟩
    rw [hevs1]
    refine ⟨Event.txn (mkTxnEvent t (scoreTxn env thr i t).1 t.is_fraud
        (explainTxn env i t.is_fraud)) ::
      ((if i % 10 = 0 ∨ i = n - 1 then
        [Event.stats_update (updateStats st.stats t.is_fraud t.fraud_type
          t.is_fraud)]
       else []) ++ evs1), ?_⟩
    simp [List.append_assoc]

lemma updateStats_counters (s : StatsSnapshot) (f : Bool) (ft : Option String)
    (fl : Bool) :
    (updateStats s f ft fl).total = s.total + 1 ∧
    (updateStats s f ft fl).tp = s.tp +
      (if f = true ∧ fl = true then 1 else 0) ∧
    (updateStats s f ft fl).fn = s.fn +
      (if f = true ∧ fl = false then 1 else 0) ∧
    (updateStats s f ft fl).fp = s.fp +
      (if f = false ∧ fl = true then 1 else 0) ∧
    (updateStats s f ft fl).tn = s.tn +
      (if f = false ∧ fl = false then 1 else 0) := by
  cases f <;> cases fl <;>
    simp [updateStats, updateCounts, recomputeMetrics]

lemma foldl_update_stub (txns : List Txn) :
    ∀ s : StatsSnapshot,
      (txns.foldl (fun s t => updateStats s t.is_fraud t.fraud_type t.is_fraud)
        s).total = s.total + txns.length ∧
      (txns.foldl (fun s t => updateStats s t.is_fraud t.fraud_type t.is_fraud)
        s).tp = s.tp + txns.countP (fun t => t.is_fraud) ∧
      (txns.foldl (fun s t => updateStats s t.is_fraud t.fraud_type t.is_fraud)
        s).fn = s.fn ∧
      (txns.foldl (fun s t => updateStats s t.is_fraud t.fraud_type t.is_fraud)
        s).fp = s.fp := by
  induction txns with
  | nil => intro s; simp
  | cons t rest ih =>
    intro s
    obtain ⟨h1, h2, h3, h4⟩ :=
      ih (updateStats s t.is_fraud t.fraud_type t.is_fraud)
    obtain ⟨u1, u2, u3, u4, u5⟩ :=
      updateStats_counters s t.is_fraud t.fraud_type t.is_fraud
    simp only [List.foldl_cons, List.length_cons, List.countP_cons]
    rw [h1, h2, h3, h4, u1, u2, u3, u4]
    cases hf : t.is_fraud <;> simp [hf] <;> omega

end Aegis

namespace Aegis

lemma groupLoop_len_lb (gen : ℕ → ℕ → List Txn × ℕ) (L : ℕ)
    (h : ∀ c tid, L ≤ (gen c tid).1.length) :
    ∀ reps tid c, reps * L ≤ (groupLoop gen reps tid c).1.length := by
  intro reps
  induction reps with
  | zero => intro tid c; simp [groupLoop]
  | succ reps ih =>
    intro tid c
    simp only [groupLoop, List.length_append]
    have h1 := h c tid
    have h2 := ih (tid + (gen c tid).1.length) (gen c tid).2
    rw [Nat.succ_mul]
    omega

lemma countP_eq_length_of_fraud (l : List Txn)
    (h : ∀ t ∈ l, t.is_fraud = true) :
    l.countP (fun t => t.is_fraud) = l.length :=
  List.countP_eq_length.2 (fun t ht => by simpa using h t ht)

lemma countP_eq_zero_of_normal (l : List Txn)
    (h : ∀ t ∈ l, t.is_fraud = false) :
    l.countP (fun t => t.is_fraud) = 0 :=
  List.countP_eq_zero.2 (fun t ht => by simp [h t ht])

lemma batch100_facts (g : ℕ → ℕ) (pfx : String) :
    (generate_attack_batch g 100 (0.1 : ℚ) pfx).length =
      90 + (generate_attack_batch g 100 (0.1 : ℚ) pfx).countP
        (fun t => t.is_fraud) ∧
    23 ≤ (generate_attack_batch g 100 (0.1 : ℚ) pfx).countP
      (fun t => t.is_fraud) := by
  rw [gab100]
  simp only [batchCore]
  rw [(shuffle_perm g _ _).length_eq, List.Perm.countP_eq _ (shuffle_perm g _ _)]
  norm_num
  generalize hA : normalLoop g batchBaseTime pfx 90 1 0 = A
  generalize hB : groupLoop (fun c tid => gen_velocity g c tid batchBaseTime pfx)
    1 91 A.2 = B
  generalize hC : groupLoop
    (fun c tid => gen_card_testing g c tid batchBaseTime pfx) 1 B.2.1 B.2.2 = C
  generalize hD : groupLoop
    (fun c tid => gen_collusion g c tid batchBaseTime pfx) 1 C.2.1 C.2.2 = D
  generalize hE : groupLoop (fun c tid => gen_geo g c tid batchBaseTime pfx)
    1 D.2.1 D.2.2 = E
  generalize hF : groupLoop (fun c tid => gen_amount g c tid batchBaseTime pfx)
    2 E.2.1 E.2.2 = F
  have hAlen : A.1.length = 90 := by
    rw [← hA]; exact normalLoop_len g batchBaseTime pfx 90 1 0
  have hAcnt : A.1.countP (fun t => t.is_fraud) = 0 := by
    rw [← hA]
    exact countP_eq_zero_of_normal _
      (fun t ht => (normalLoop_mem g batchBaseTime pfx 90 1 0 t ht).1)
  have hBcnt : B.1.countP (fun t => t.is_fraud) = B.1.length := by
    rw [← hB]
    exact countP_eq_length_of_fraud _ (fun t ht => (groupLoop_mem _ _
      (fun c tid => gen_velocity_mem g c tid batchBaseTime pfx) 1 91 A.2 t ht).1)
  have hBlb : 8 ≤ B.1.length := by
    rw [← hB]
    have := groupLoop_len_lb _ 8
      (fun c tid => (gen_velocity_len g c tid batchBaseTime pfx).1) 1 91 A.2
    omega
  have hCcnt : C.1.countP (fun t => t.is_fraud) = C.1.length := by
    rw [← hC]
    exact countP_eq_length_of_fraud _ (fun t ht => (groupLoop_mem _ _
      (fun c tid => gen_card_testing_mem g c tid batchBaseTime pfx)
      1 B.2.1 B.2.2 t ht).1)
  have hClb : 5 ≤ C.1.length := by
    rw [← hC]
    have := groupLoop_len_lb _ 5
      (fun c tid => gen_card_testing_len g c tid batchBaseTime pfx) 1 B.2.1 B.2.2
    omega
  have hDcnt : D.1.countP (fun t => t.is_fraud) = D.1.length := by
    rw [← hD]
    exact countP_eq_length_of_fraud _ (fun t ht => (groupLoop_mem _ _
      (fun c tid => gen_collusion_mem g c tid batchBaseTime pfx)
      1 C.2.1 C.2.2 t ht).1)
  have hDlb : 6 ≤ D.1.length := by
    rw [← hD]
    have := groupLoop_len_lb _ 6
      (fun c tid => gen_collusion_len g c tid batchBaseTime pfx) 1 C.2.1 C.2.2
    omega
  have hEcnt : E.1.countP (fun t => t.is_fraud) = E.1.length := by
    rw [← hE]
    exact countP_eq_length_of_fraud _ (fun t ht => (groupLoop_mem _ _
      (fun c tid => gen_geo_mem g c tid batchBaseTime pfx) 1 D.2.1 D.2.2 t ht).1)
  have hElb : 2 ≤ E.1.length := by
    rw [← hE]
    have := groupLoop_len_lb _ 2
      (fun c tid => (gen_geo_len g c tid batchBaseTime pfx).ge) 1 D.2.1 D.2.2
    omega
  have hFcnt : F.1.countP (fun t => t.is_fraud) = F.1.length := by
    rw [← hF]
    exact countP_eq_length_of_fraud _ (fun t ht => (groupLoop_mem _ _
      (fun c tid => gen_amount_mem g c tid batchBaseTime pfx) 2 E.2.1 E.2.2 t ht).1)
  have hFlb : 2 ≤ F.1.length := by
    rw [← hF]
    have := groupLoop_len_lb _ 1
      (fun c tid => (gen_amount_len g c tid batchBaseTime pfx).ge) 2 E.2.1 E.2.2
    omega
  rw [hAlen, hAcnt, hBcnt, hCcnt, hDcnt, hEcnt, hFcnt]
  omega

end Aegis

namespace Aegis

lemma foldl_update_last (l : List Txn) :
    ∀ s : StatsSnapshot, l ≠ [] →
      ∃ s0 f ft fl, l.foldl
        (fun s t => updateStats s t.is_fraud t.fraud_type t.is_fraud) s =
          updateStats s0 f ft fl := by
  induction l with
  | nil => intro s h; exact absurd rfl h
  | cons t rest ih =>
    intro s _
    cases rest with
    | nil => exact ⟨s, t.is_fraud, t.fraud_type, t.is_fraud, by simp⟩
    | cons u more =>
      obtain ⟨s0, f, ft, fl, h⟩ :=
        ih (updateStats s t.is_fraud t.fraud_type t.is_fraud) (by simp)
      exact ⟨s0, f, ft, fl, by simpa using h⟩

lemma stub_final_metrics (l : List Txn) (hne : l ≠ [])
    (hnf : 1 ≤ l.countP (fun t => t.is_fraud)) :
    (l.foldl (fun s t => updateStats s t.is_fraud t.fraud_type t.is_fraud)
      emptyStats).«recall» = 1 ∧
    (l.foldl (fun s t => updateStats s t.is_fraud t.fraud_type t.is_fraud)
      emptyStats).precision = 1 ∧
    (l.foldl (fun s t => updateStats s t.is_fraud t.fraud_type t.is_fraud)
      emptyStats).f1 = 1 ∧
    (l.foldl (fun s t => updateStats s t.is_fraud t.fraud_type t.is_fraud)
      emptyStats).fpr = 0 := by
  obtain ⟨s0, f, ft, fl, hEq⟩ := foldl_update_last l emptyStats hne
  obtain ⟨ht, htp, hfn, hfp⟩ := foldl_update_stub l emptyStats
  set r := l.foldl (fun s t => updateStats s t.is_fraud t.fraud_type t.is_fraud)
    emptyStats with hr
  have hm := updateStats_metrics_bounds s0 f ft fl
  rw [← hEq] at hm
  obtain ⟨m1, m2, m3, m4, _⟩ := hm
  have htp' : r.tp = l.countP (fun t => t.is_fraud) := by
    simpa [emptyStats] using htp
  have hfn' : r.fn = 0 := by simpa [emptyStats] using hfn
  have hfp' : r.fp = 0 := by simpa [emptyStats] using hfp
  have hcast : ((l.countP (fun t => t.is_fraud) : ℕ) : ℚ) ≠ 0 := by
    have : 0 < l.countP (fun t => t.is_fraud) := hnf
    exact_mod_cast this.ne'
  have hrec : r.«recall» = 1 := by
    rw [m1, htp', hfn']
    have hmax : max (l.countP (fun t => t.is_fraud) + 0) 1 =
        l.countP (fun t => t.is_fraud) := by omega
    rw [hmax, div_self hcast, round4_one]
  have hprec : r.precision = 1 := by
    rw [m2, htp', hfp']
    have hmax : max (l.countP (fun t => t.is_fraud) + 0) 1 =
        l.countP (fun t => t.is_fraud) := by omega
    rw [hmax, div_self hcast, round4_one]
  refine ⟨hrec, hprec, ?_, ?_⟩
  · rw [m3, hrec, hprec]
    have h2 : max ((1 : ℚ) + 1) (1 / 100000000) = 2 := by norm_num
    rw [h2]
    norm_num [round4_one]
  · rw [m4, hfp']
    have : ((0 : ℕ) : ℚ) / ((max (0 + r.tn) 1 : ℕ) : ℚ) = 0 := by simp
    rw [this, round4_zero]

end Aegis

namespace Aegis

lemma runLoop_none_eq (env : Env) (thr : ℚ) (n : ℕ) :
    ∀ (txns : List Txn) (i : ℕ) (st : LoopSt),
      runLoop env none thr n txns i st =
        .ok ⟨loopStatsNoDb env thr txns i st.stats,
          st.events ++ loopEventsNoDb env thr n txns i st.stats, st.dbs⟩ := by
  intro txns
  induction txns with
  | nil =>
    intro i st
    obtain ⟨s0, e0, d0⟩ := st
    simp [runLoop, loopStatsNoDb, loopEventsNoDb]
  | cons t rest ih =>
    intro i st
    simp only [runLoop, procTxn_none_ok, loopStatsNoDb, loopEventsNoDb]
    rw [ih (i + 1)]
    simp [List.append_assoc]

lemma loopStatsNoDb_stub (env : Env) (thr : ℚ)
    (hflag : ∀ i t, (scoreTxn env thr i t).2 = t.is_fraud) :
    ∀ (txns : List Txn) (i : ℕ) (s : StatsSnapshot),
      loopStatsNoDb env thr txns i s =
        txns.foldl (fun s t => updateStats s t.is_fraud t.fraud_type t.is_fraud) s := by
  intro txns
  induction txns with
  | nil => intro i s; simp [loopStatsNoDb]
  | cons t rest ih =>
    intro i s
    simp only [loopStatsNoDb, List.foldl_cons, hflag i t]
    exact ih (i + 1) _

end Aegis

namespace Aegis

lemma getLast?_append_two (l : List Event) (a b : Event) :
    (l ++ [a, b]).getLast? = some b := by
  rw [show l ++ [a, b] = (l ++ [a]) ++ [b] by simp]
  exact List.getLast?_concat _

lemma runBody_none_eq (cfg : AttackConfig) (env : Env) (g : ℕ → ℕ)
    (pfx : String) :
    runBody cfg env none g pfx none =
      .ok ⟨loopStatsNoDb env (modelThreshold env)
          (generate_attack_batch g cfg.total cfg.fraud_pct pfx) 0 emptyStats,
        (preLoopEvents cfg env
            (generate_attack_batch g cfg.total cfg.fraud_pct pfx).length
            ((generate_attack_batch g cfg.total cfg.fraud_pct pfx).countP
              (fun t => t.is_fraud)) ++
          loopEventsNoDb env (modelThreshold env)
            (generate_attack_batch g cfg.total cfg.fraud_pct pfx).length
            (generate_attack_batch g cfg.total cfg.fraud_pct pfx) 0 emptyStats) ++
          [Event.log "success" "[AegisNode] Attack complete!",
           Event.attack_end (loopStatsNoDb env (modelThreshold env)
             (generate_attack_batch g cfg.total cfg.fraud_pct pfx) 0 emptyStats)],
        none⟩ := by
  simp only [runBody]
  rw [runLoop_none_eq]

lemma run_attack_none_eq (cfg : AttackConfig) (env : Env) (g : ℕ → ℕ)
    (pfx : String) :
    run_attack cfg env none g pfx ⟨false, emptyStats⟩ =
      ⟨(preLoopEvents cfg env
            (generate_attack_batch g cfg.total cfg.fraud_pct pfx).length
            ((generate_attack_batch g cfg.total cfg.fraud_pct pfx).countP
              (fun t => t.is_fraud)) ++
          loopEventsNoDb env (modelThreshold env)
            (generate_attack_batch g cfg.total cfg.fraud_pct pfx).length
            (generate_attack_batch g cfg.total cfg.fraud_pct pfx) 0 emptyStats) ++
          [Event.log "success" "[AegisNode] Attack complete!",
           Event.attack_end (loopStatsNoDb env (modelThreshold env)
             (generate_attack_batch g cfg.total cfg.fraud_pct pfx) 0 emptyStats)],
        ⟨false, loopStatsNoDb env (modelThreshold env)
          (generate_attack_batch g cfg.total cfg.fraud_pct pfx) 0 emptyStats⟩,
        none, false⟩ := by
  unfold run_attack
  rw [if_neg (by simp)]
  simp only [Option.map_none']
  rw [runBody_none_eq]

end Aegis

namespace Aegis

lemma finalAttackEndStats_ev (evs : List Event) (gs : GState)
    (d : Option DbState) (r : Bool) (l : List Event) (a : Event)
    (s : StatsSnapshot) (h : evs = l ++ [a, Event.attack_end s]) :
    finalAttackEndStats ⟨evs, gs, d, r⟩ = some s := by
  simp only [finalAttackEndStats, h, getLast?_append_two]

lemma finalAttackEndStats_none_run (cfg : AttackConfig) (env : Env)
    (g : ℕ → ℕ) (pfx : String) :
    finalAttackEndStats (run_attack cfg env none g pfx ⟨false, emptyStats⟩) =
      some (loopStatsNoDb env (modelThreshold env)
        (generate_attack_batch g cfg.total cfg.fraud_pct pfx) 0 emptyStats) := by
  rw [run_attack_none_eq]
  exact finalAttackEndStats_ev _ _ _ _ _ _ _ rfl

/-- C4 (amended): for the end-to-end scenario configuration total=100,
fraud_pct=0.1, speed="fast" against a stub scorer that flags a transaction
exactly when its ground truth is fraud, the stats carried by the final
`attack_end` event satisfy recall = 1, precision = 1, f1 = 1, fpr = 0 and the
generated fraud count is at least 10 — but the stats total equals the length
of the generated batch (90 normals plus the fraud groups), which is strictly
greater than 100 rather than equal to 100, because `generate_attack_batch`
appends full fraud groups on top of `total - n_fraud_target` normals. -/
theorem run_attack_stub_scorer_end_stats (g : ℕ → ℕ) (pfx : String)
    (env : Env) (rsk : ℕ → ScoreReq → ℚ)
    (hscore : ∀ i q, env.score i q = some (rsk i q, q.is_fraud)) :
    ∃ s : StatsSnapshot,
      finalAttackEndStats (run_attack cfg100 env none g pfx
        ⟨false, emptyStats⟩) = some s ∧
      s.«recall» = 1 ∧ s.precision = 1 ∧ s.f1 = 1 ∧ s.fpr = 0 ∧
      10 ≤ (generate_attack_batch g 100 (0.1 : ℚ) pfx).countP
        (fun t => t.is_fraud) ∧
      s.total = (generate_attack_batch g 100 (0.1 : ℚ) pfx).length ∧
      100 < s.total := by
  have hflag : ∀ i t, (scoreTxn env (modelThreshold env) i t).2 = t.is_fraud := by
    intro i t
    simp [scoreTxn, hscore]
  have hfin := finalAttackEndStats_none_run cfg100 env g pfx
  have hb : generate_attack_batch g cfg100.total cfg100.fraud_pct pfx =
      generate_attack_batch g 100 (0.1 : ℚ) pfx := rfl
  rw [hb] at hfin
  rw [loopStatsNoDb_stub env (modelThreshold env) hflag] at hfin
  obtain ⟨hlen, hcnt⟩ := batch100_facts g pfx
  set l := generate_attack_batch g 100 (0.1 : ℚ) pfx with hl
  have hne : l ≠ [] := by
    intro h0
    rw [h0] at hlen
    simp at hlen
  obtain ⟨ht, htp, hfn, hfp⟩ := foldl_update_stub l emptyStats
  obtain ⟨m1, m2, m3, m4⟩ := stub_final_metrics l hne (by omega)
  have h0 : emptyStats.total = 0 := rfl
  exact ⟨_, hfin, m1, m2, m3, m4, by omega, by omega, by omega⟩

/-- Witness for C4 (amended) at the concrete stub environment, the all-zero
draw stream and run prefix "ab". -/
theorem run_attack_stub_scorer_end_stats_witness :
    (∀ i q, envStub.score i q =
      some ((fun (i : ℕ) (q : ScoreReq) =>
        if q.is_fraud then (0.9 : ℚ) else (0.1 : ℚ)) i q, q.is_fraud)) ∧
    (∃ s : StatsSnapshot,
      finalAttackEndStats (run_attack cfg100 envStub none g0 "ab"
        ⟨false, emptyStats⟩) = some s ∧
      s.«recall» = 1 ∧ s.precision = 1 ∧ s.f1 = 1 ∧ s.fpr = 0 ∧
      10 ≤ (generate_attack_batch g0 100 (0.1 : ℚ) "ab").countP
        (fun t => t.is_fraud) ∧
      s.total = (generate_attack_batch g0 100 (0.1 : ℚ) "ab").length ∧
      100 < s.total) :=
  ⟨fun i q => rfl,
   run_attack_stub_scorer_end_stats g0 "ab" envStub
     (fun (i : ℕ) (q : ScoreReq) =>
       if q.is_fraud then (0.9 : ℚ) else (0.1 : ℚ))
     (fun i q => rfl)⟩

/-- Counterexample for C4 as stated: in the concrete end-to-end run
(total=100, fraud_pct=0.1, speed="fast", stub scorer, all-zero draw stream,
prefix "ab") the `attack_end` event's stats total is 113, not 100. -/
theorem run_attack_end_stats_total_not_100 :
    (finalAttackEndStats (run_attack cfg100 envStub none g0 "ab"
      ⟨false, emptyStats⟩)).map StatsSnapshot.total = some 113 ∧
    (113 : ℕ) ≠ 100 := by
  refine ⟨?_, by decide⟩
  rw [finalAttackEndStats_none_run, Option.map_some']
  refine congrArg some ?_
  have hflag : ∀ i t,
      (scoreTxn envStub (modelThreshold envStub) i t).2 = t.is_fraud :=
    fun i t => rfl
  rw [loopStatsNoDb_stub envStub (modelThreshold envStub) hflag]
  have ht := (foldl_update_stub
    (generate_attack_batch g0 cfg100.total cfg100.fraud_pct "ab") emptyStats).1
  have hlen : (generate_attack_batch g0 cfg100.total cfg100.fraud_pct "ab").length
      = 113 := by
    show (generate_attack_batch g0 100 (0.1 : ℚ) "ab").length = 113
    rw [gab100]
    decide
  have h0 : emptyStats.total = 0 := rfl
  omega

end Aegis
